/-
Verification of the semantic-memory engine (ai_brain services).

Shallow embedding of the Python modules
  services/ai_brain/memory_search.py
  services/ai_brain/memory_consolidation.py
  services/ai_brain/async_processing.py
  services/ai_brain/data_partitioning.py
  services/ai_brain/embeddings.py
over explicit state passing:
  - the SQL table of `Memory` rows (shared/models/__init__.py) is a
    `List Memory`; SQLAlchemy queries become list filters with SQL
    three-valued NULL semantics made explicit;
  - `datetime.utcnow()` is an explicit `now : Int` parameter
    (seconds since the epoch); `timedelta(days = d)` is `d * 86400`;
  - Python floats are modelled as exact rationals; the only
    non-rational operation, `** 0.5` in `cosine_similarity`, is an
    abstract parameter `fsqrt : Q -> Q`, and the embedding model /
    sha256 fallback of `embed_text` is an abstract deterministic
    `embedFn : String -> List Q` (none of the verified properties
    depend on the values these produce);
  - a Python `Optional` column is an `Option`, and the pervasive
    truthiness tests (`if mem.ttl_seconds:`) are translated exactly,
    so `Some 0` and `Some ""` are falsy;
  - exceptions are `Except PyErr`.
-/

import Mathlib

namespace AiBrain

/-- Python exception values that the modelled code can raise. -/
inductive PyErr where
  /-- `TypeError`, e.g. slicing `None` (`mem.text_blob[:100]` with a NULL
  `text_blob`). -/
  | typeError : PyErr
  /-- `ImportError`: a `from .embeddings import name` naming a missing
  attribute. -/
  | importError (missingName : String) : PyErr
  /-- `IndexError`, e.g. `memories[0]` on an empty list (unreachable for
  the nonempty groups produced by the consolidation grouping). -/
  | indexError : PyErr
  /-- `ValueError`, e.g. `datetime.fromisoformat` on a malformed string or
  an unknown task type in `_process_task`. -/
  | valueError : PyErr
  /-- `KeyError`: a task payload missing the key its handler reads. -/
  | keyError : PyErr
deriving DecidableEq, Repr

/-- The value stored in the `embedding_json` column, abstracted to its
`json.loads` outcome: either a JSON list of floats or a payload whose parse
(or similarity computation) raises and makes retrieval skip the record.
The empty string (falsy in Python, skipped before parsing) is also
represented by `bad`, since every modelled code path treats the two
identically (the record is skipped). -/
inductive Ejson where
  | vec (v : List ℚ) : Ejson
  | bad : Ejson
deriving DecidableEq, Repr

/-- One row of the `memory` table (`shared/models/__init__.py`, class
`Memory`).  `created_at` is seconds since the epoch; it is non-nullable
(`default_factory=datetime.utcnow`).  `id` is the DB-assigned primary key;
rows not yet flushed carry `none`. -/
structure Memory where
  id : Option Nat := none
  created_at : Int
  source : Option String := none
  modality : Option String := none
  text_blob : Option String := none
  metadata_json : Option String := none
  embedding_json : Option Ejson := none
  privacy_label : Option String := none
  ttl_seconds : Option Int := none
deriving DecidableEq, Repr

/-- Python falsiness of a `str`: only the empty string is falsy. -/
def pyFalsyStr (s : String) : Bool := s == ""

/-- Python truthiness of an `Optional[str]`: `None` and `""` are falsy. -/
def pyTruthyStr : Option String → Bool
  | none => false
  | some s => !(pyFalsyStr s)

/-- Python truthiness of an `Optional[int]`: `None` and `0` are falsy. -/
def pyTruthyInt : Option Int → Bool
  | none => false
  | some n => n != 0

/-- `embeddings.embed_text`: empty/None text embeds to the 384-dim zero
vector; otherwise the (model or sha256-fallback) embedding `embedFn`, which
per the source never raises (`model.encode` failures fall back to the hash
embedding). -/
def embed_text (embedFn : String → List ℚ) (text : Option String) : List ℚ :=
  match text with
  | none => List.replicate 384 0
  | some s => if pyFalsyStr s then List.replicate 384 0 else embedFn s

/-- `embeddings.cosine_similarity`, with `** 0.5` as the abstract `fsqrt`.
Returns `0` on empty or length-mismatched input and on zero magnitudes. -/
def cosine_similarity (fsqrt : ℚ → ℚ) (vec1 vec2 : List ℚ) : ℚ :=
  if vec1 = [] ∨ vec2 = [] ∨ vec1.length ≠ vec2.length then 0
  else
    let dot_product := ((vec1.zip vec2).map (fun p => p.1 * p.2)).sum
    let mag1 := fsqrt ((vec1.map (fun a => a * a)).sum)
    let mag2 := fsqrt ((vec2.map (fun b => b * b)).sum)
    if mag1 = 0 ∨ mag2 = 0 then 0 else dot_product / (mag1 * mag2)

/-- TTL-expiry test of `memory_search.search_memories` lines 63-69: the
record is skipped iff `mem.ttl_seconds` is truthy (non-None, non-zero) and
`(utcnow() - created_at).total_seconds() > ttl_seconds`. -/
def ttlExpired (now : Int) (m : Memory) : Bool :=
  match m.ttl_seconds with
  | some t => t != 0 && decide (now - m.created_at > t)
  | none => false

/-- A filter applied only when its Python-truthiness guard passes
(`if privacy_filter:` / `if source_filter:`). -/
def maybeFilter (b : Bool) (p : Memory → Bool) (l : List Memory) :
    List Memory :=
  if b then l.filter p else l

/-- The `if time_window_days:` stage of the search query. -/
def timeWindowFilter (now : Int) (time_window_days : Option Int)
    (l : List Memory) : List Memory :=
  match time_window_days with
  | some d =>
      if d != 0 then
        l.filter (fun m => decide (m.created_at ≥ now - d * 86400))
      else l
  | none => l

/-- The candidate set of `search_memories` (lines 47-69): the SQLAlchemy
filters — SQL equality, under which a NULL column never matches, behind
Python-truthiness guards — followed by the TTL-expiry scan. -/
def searchCandidates (now : Int) (store : List Memory)
    (privacy_filter source_filter : Option String)
    (time_window_days : Option Int) : List Memory :=
  let q1 := maybeFilter (pyTruthyStr privacy_filter)
    (fun m => m.privacy_label == privacy_filter) store
  let q2 := maybeFilter (pyTruthyStr source_filter)
    (fun m => m.source == source_filter) q1
  let q3 := timeWindowFilter now time_window_days q2
  q3.filter (fun m => !ttlExpired now m)

/-- The scoring step of `search_memories` (lines 72-82): parse the
embedding (parse failures skip the record), score it against the query
embedding, and keep it when the similarity reaches `min_similarity`. -/
def scoreRecord (fsqrt : ℚ → ℚ) (query_embedding : List ℚ)
    (min_similarity : ℚ) (memory : Memory) : Option (Memory × ℚ) :=
  match memory.embedding_json with
  | some (.vec mem_embedding) =>
      let similarity := cosine_similarity fsqrt query_embedding mem_embedding
      if similarity ≥ min_similarity then some (memory, similarity) else none
  | some .bad => none
  | none => none

/-- The comparator of `results.sort(key=lambda x: x[1], reverse=True)`:
Python's stable descending sort by score, realised as a stable merge sort
with this boolean relation. -/
def simDescBool (a b : Memory × ℚ) : Bool := decide (b.2 ≤ a.2)

/-- `memory_search.search_memories`: embed the query, filter candidates,
score, stable-sort descending by similarity, truncate to `limit`. -/
def search_memories (embedFn : String → List ℚ) (fsqrt : ℚ → ℚ) (now : Int)
    (query : String) (store : List Memory)
    (limit : Nat := 10)
    (privacy_filter : Option String := none)
    (source_filter : Option String := none)
    (min_similarity : ℚ := 3/10)
    (time_window_days : Option Int := none) : List (Memory × ℚ) :=
  let query_embedding := embed_text embedFn (some query)
  let memories := searchCandidates now store privacy_filter source_filter
    time_window_days
  let results := memories.filterMap
    (scoreRecord fsqrt query_embedding min_similarity)
  (results.mergeSort simDescBool).take limit

/-! ## memory_consolidation.py -/

/-- Python `str()` of an `Optional[str]` dictionary key, as interpolated by
the f-strings of `consolidate_old_memories` (`None` renders as `"None"`). -/
def pyStrOpt : Option String → String
  | none => "None"
  | some s => s

/-- `memories[::step]` for `step ≥ 1`: the elements at indices divisible by
`step`, in order. -/
def strideSlice (xs : List Memory) (step : Nat) : List Memory :=
  (List.range xs.length).filterMap (fun i =>
    if i % step = 0 then xs.get? i else none)

/-- `mem.text_blob[:100]`: slicing raises `TypeError` when the column is
NULL (`text_blob` is `Optional[str]` in shared/models). -/
def sliceTextBlob (m : Memory) : Except PyErr String :=
  match m.text_blob with
  | some t => .ok (t.take 100)
  | none => .error .typeError

/-- The `"  - {mem.text_blob[:100]}"` sample lines of the consolidation
summary; the first NULL `text_blob` raises. -/
def sampledLines : List Memory → Except PyErr (List String)
  | [] => .ok []
  | m :: ms => do
    let t ← sliceTextBlob m
    let rest ← sampledLines ms
    let line := s!"  - {t}"
    .ok (line :: rest)

/-- The summary text built for one source group
(`memory_consolidation.py` lines 66-86): header with period and count,
up to 10 fixed-stride sample lines, and an overflow note.  `dateFmt`
stands for `datetime.date()` rendering. -/
def summarizeGroup (dateFmt : Int → String) (source : Option String)
    (memories : List Memory) : Except PyErr String :=
  match memories.getLast?, memories.head? with
  | some atLast, some atFirst => do
    let srcS := pyStrOpt source
    let dFrom := dateFmt atLast.created_at
    let dTo := dateFmt atFirst.created_at
    let len := memories.length
    let header := [s!"Memory consolidation summary for {srcS}",
                   s!"Period: {dFrom} to {dTo}",
                   s!"Total events: {len}",
                   "",
                   "Events:"]
    let sample_size := min 10 len
    let step := if sample_size > 0 then len / sample_size else 1
    let sampled := (strideSlice memories step).take sample_size
    let lines ← sampledLines sampled
    let extra := len - sample_size
    let tailNote := if len > sample_size then
        [s!"  ... and {extra} more events"] else []
    .ok (String.intercalate "\n" (header ++ lines ++ tailNote))
  | _, _ => .error .indexError

/-- `json.dumps` of the summary metadata dictionary
(`consolidated_count` plus the ISO date range); `isoFmt` stands for
`datetime.isoformat()`. -/
def summaryMetadataJson (isoFmt : Int → String) (count : Nat)
    (startT endT : Int) : String :=
  "\x7b\"consolidated_count\": " ++ toString count ++
    ", \"date_range\": \x7b\"start\": \"" ++ isoFmt startT ++
    "\", \"end\": \"" ++ isoFmt endT ++ "\"\x7d\x7d"

/-- One step of the `defaultdict(list)` grouping: append `m` to its
source's group, creating the group at the end on first occurrence. -/
def gbStep (acc : List (Option String × List Memory)) (m : Memory) :
    List (Option String × List Memory) :=
  if acc.any (fun p => p.1 = m.source) then
    acc.map (fun p => if p.1 = m.source then (p.1, p.2 ++ [m]) else p)
  else acc ++ [(m.source, [m])]

/-- `defaultdict(list)` grouping by `mem.source` followed by
`by_source.items()`: keys in order of first occurrence, each group in
selection order. -/
def groupBySource (ms : List Memory) : List (Option String × List Memory) :=
  ms.foldl gbStep []

/-- The stats dictionary returned by `consolidate_old_memories`.  The
early-return dictionary `{"consolidated": 0, "deleted": 0}` is the record
with all fields at their defaults. -/
structure ConsStats where
  consolidated : Nat := 0
  deleted : Nat := 0
  summaries_created : Nat := 0
  by_source : List (Option String × Nat) := []
deriving DecidableEq, Repr

/-- The per-source loop of `consolidate_old_memories` (lines 63-116),
processed in dict order.  Each non-dry-run group commits before the next
group starts, so on an exception the store reflects the groups already
processed and no stats dictionary is returned (the exception propagates:
there is no try/except around the loop body). -/
def consolidateGroups (embedFn : String → List ℚ)
    (dateFmt isoFmt : Int → String) (now : Int) (dry_run : Bool) :
    List (Option String × List Memory) → List Memory → ConsStats →
    List Memory × Except PyErr ConsStats
  | [], store, stats => (store, .ok stats)
  | (source, memories) :: rest, store, stats =>
    match summarizeGroup dateFmt source memories with
    | .error e => (store, .error e)
    | .ok summary_text =>
      let len := memories.length
      match memories.getLast?, memories.head? with
      | some atLast, some atFirst =>
        let store' := if dry_run then store else
          let summary_embedding := embed_text embedFn (some summary_text)
          let summary_mem : Memory := {
            id := none,   -- primary key assigned by the database on commit
            created_at := now,
            source := some (pyStrOpt source ++ "_summary"),
            modality := some "text",
            text_blob := some summary_text,
            metadata_json := some (summaryMetadataJson isoFmt len
              atLast.created_at atFirst.created_at),
            embedding_json := some (.vec summary_embedding),
            privacy_label := some "private",
            ttl_seconds := none }
          (store.filter (fun r => !(memories.contains r))) ++ [summary_mem]
        let stats' := { stats with
          summaries_created := if dry_run then stats.summaries_created
            else stats.summaries_created + 1,
          deleted := if dry_run then stats.deleted else stats.deleted + len,
          by_source := stats.by_source ++ [(source, len)],
          consolidated := stats.consolidated + len }
        consolidateGroups embedFn dateFmt isoFmt now dry_run rest store' stats'
      | _, _ => (store, .error .indexError)

/-- The SQLAlchemy selection of `consolidate_old_memories`:
`created_at < cutoff AND source != 'conversation'` under SQL three-valued
logic — rows with a NULL `source` are not selected. -/
def oldSelB (now days_old : Int) (m : Memory) : Bool :=
  decide (m.created_at < now - days_old * 86400) &&
  match m.source with
  | some s => s != "conversation"
  | none => false

/-- `memory_consolidation.consolidate_old_memories`: select up to
`batch_size` old non-conversation rows, group by source, run the
per-group loop.  Returns the resulting store together with the stats
dictionary, or the propagated exception of the first failing group. -/
def consolidate_old_memories (embedFn : String → List ℚ)
    (dateFmt isoFmt : Int → String) (now : Int) (store : List Memory)
    (days_old : Int := 30) (batch_size : Nat := 100)
    (dry_run : Bool := false) : List Memory × Except PyErr ConsStats :=
  let old_memories := (store.filter (oldSelB now days_old)).take batch_size
  if old_memories = [] then (store, .ok {})
  else consolidateGroups embedFn dateFmt isoFmt now dry_run
    (groupBySource old_memories) store {}

/-- The scan of `cleanup_expired_memories` (lines 135-144): the rows with
a non-NULL `ttl_seconds` (`Memory.ttl_seconds.isnot(None)`) whose age
exceeds their (truthy) TTL. -/
def expiredScan (now : Int) (store : List Memory) : List Memory :=
  (store.filter (fun m => m.ttl_seconds ≠ none)).filter
    (fun m => ttlExpired now m)

/-- `memory_consolidation.cleanup_expired_memories`: collects the expired
rows, deletes them unless `dry_run`, and returns the resulting store with
the count. -/
def cleanup_expired_memories (now : Int) (store : List Memory)
    (dry_run : Bool := false) : List Memory × Nat :=
  let expired := expiredScan now store
  if expired = [] then (store, 0)
  else if dry_run then (store, expired.length)
  else (store.filter (fun r => !(expired.contains r)), expired.length)

/-- The row-update condition of `optimize_embeddings`: `embedding_json`
parses to a list of fewer than 100 floats (hash-fallback dimension);
non-parsing payloads are skipped by the bare `except: pass`. -/
def needsEmbeddingUpdate (m : Memory) : Bool :=
  match m.embedding_json with
  | some (.vec v) => decide (v.length < 100)
  | some .bad => false
  | none => false

/-- `memory_consolidation.optimize_embeddings`: if no embedding model is
available returns 0 untouched; otherwise re-embeds (or, in dry-run, just
counts) every row whose stored embedding is shorter than 100 floats. -/
def optimize_embeddings (modelAvailable : Bool) (embedFn : String → List ℚ)
    (store : List Memory) (dry_run : Bool := false) : List Memory × Nat :=
  if !modelAvailable then (store, 0)
  else
    let updated := (store.filter needsEmbeddingUpdate).length
    if dry_run then (store, updated)
    else
      (store.map (fun m =>
        if needsEmbeddingUpdate m then
          let newEmb := Ejson.vec (embed_text embedFn m.text_blob)
          { m with embedding_json := some newEmb }
        else m), updated)

/-! ## data_partitioning.py -/

/-- A Python `datetime` value, abstracted to the components that
`DataPartitioner` renders (`strftime('%Y-%m')`). -/
structure PyDateTime where
  year : Nat
  month : Nat
deriving DecidableEq, Repr

/-- Zero-padding of `strftime` fields. -/
def padTo (width : Nat) (n : Nat) : String :=
  let s := toString n
  String.mk (List.replicate (width - s.length) '0') ++ s

/-- `DataPartitioner.get_time_partition_key`: `"time_" + dt.strftime('%Y-%m')`
where `dt = timestamp or datetime.utcnow()` (a `datetime` is always truthy,
so `now` is used exactly when `timestamp` is `None`). -/
def get_time_partition_key (now : PyDateTime) (timestamp : Option PyDateTime) :
    String :=
  let dt := timestamp.getD now
  let ym := padTo 4 dt.year ++ "-" ++ padTo 2 dt.month
  "time_" ++ ym

/-- `DataPartitioner.get_source_partition_key`:
`"source_" + source.lower().replace(' ', '_')`. -/
def get_source_partition_key (source : String) : String :=
  "source_" ++ (source.toLower.replace " " "_")

/-- `DataPartitioner.get_user_partition_key`: `"user_" + user_id`. -/
def get_user_partition_key (user_id : String) : String :=
  "user_" ++ user_id

/-- The `created_at` value held in the memory dictionary passed to
`get_partition_keys`: either an already-parsed `datetime` or an ISO
string. -/
inductive CreatedAtVal where
  | dt (d : PyDateTime) : CreatedAtVal
  | str (s : String) : CreatedAtVal
deriving DecidableEq, Repr

/-- The dictionary handed to `DataPartitioner.get_partition_keys`
(the keys it reads: `created_at`, `source`, `metadata_json`). -/
structure MemoryData where
  created_at : Option CreatedAtVal := none
  source : Option String := none
  metadata_json : Option String := none
deriving DecidableEq, Repr

/-- `DataPartitioner.get_partition_keys`.  `parseIso` stands for
`datetime.fromisoformat` (applied after `.replace('Z', '+00:00')`; `none`
models the uncaught `ValueError` it raises on malformed input), and
`parseJsonObj` for `json.loads` of the metadata (its failures are swallowed
by the `except: pass`).  Both collaborators are deterministic; the current
time `now` is threaded explicitly so that independence from it is a
provable statement. -/
def get_partition_keys (parseIso : String → Option PyDateTime)
    (parseJsonObj : String → Option (List (String × String)))
    (now : PyDateTime) (memory_data : MemoryData) :
    Except PyErr (List String) := do
  let keys1 : List String ← match memory_data.created_at with
    | some (.dt d) => pure [get_time_partition_key now (some d)]
    | some (.str s) =>
        if pyFalsyStr s then pure []
        else match parseIso (s.replace "Z" "+00:00") with
          | some d => pure [get_time_partition_key now (some d)]
          | none => throw .valueError
    | none => pure []
  let keys2 := match memory_data.source with
    | some s => if pyFalsyStr s then keys1
        else keys1 ++ [get_source_partition_key s]
    | none => keys1
  let keys3 := match memory_data.metadata_json with
    | some mj =>
        if pyFalsyStr mj then keys2
        else match parseJsonObj mj with
          | some d =>
              match d.lookup "user_id" with
              | some uid => if pyFalsyStr uid then keys2
                  else keys2 ++ [get_user_partition_key uid]
              | none => keys2
          | none => keys2
    | none => keys2
  pure keys3

/-! ## async_processing.py: ResourceManager -/

/-- `ResourceManager.current_stats` (externally reported utilization). -/
structure ResourceStats where
  memory_usage_mb : ℚ := 0
  cpu_usage_percent : ℚ := 0
  active_tasks : Int := 0
deriving DecidableEq, Repr

/-- `ResourceManager.should_throttle` (lines 293-298): memory is compared
against `max_memory_mb * 0.9`, but CPU against the full
`max_cpu_percent`. -/
def should_throttle (max_memory_mb max_cpu_percent : ℚ)
    (current : ResourceStats) : Bool :=
  decide (current.memory_usage_mb > max_memory_mb * (9/10)) ||
  decide (current.cpu_usage_percent > max_cpu_percent)

/-- Modelled from the spec: "`should_throttle()` is true once utilization
exceeds 90% of either configured ceiling" — both resources compared
against 90% of their ceiling.  Kept only to compare against the source's
`should_throttle`. -/
def should_throttle_claimed (max_memory_mb max_cpu_percent : ℚ)
    (current : ResourceStats) : Bool :=
  decide (current.memory_usage_mb > max_memory_mb * (9/10)) ||
  decide (current.cpu_usage_percent > max_cpu_percent * (9/10))

/-! ## async_processing.py: the priority queue

`AsyncProcessingPipeline.task_queue` is `queue.PriorityQueue`, whose
`_put`/`_get` are exactly `heapq.heappush`/`heapq.heappop` on a plain
list.  `ProcessingTask` is `@dataclass(order=True)` with every field but
`priority` marked `compare=False`, so the comparison used by the heap is
`a.priority < b.priority` alone. -/

/-- The task-type-specific `data` payload of a `ProcessingTask`. -/
inductive TaskData where
  | texts (l : List String) : TaskData
  | text_batches (l : List (List String)) : TaskData
  | memories (n : Nat) : TaskData
  | partition_key (k : String) : TaskData
deriving DecidableEq, Repr

/-- `ProcessingTask` (async_processing.py lines 22-31).  The opaque
`callback` is modelled by its presence. -/
structure ProcessingTask where
  priority : Int
  task_id : String
  task_type : String
  data : TaskData
  hasCallback : Bool := false
  created_at : Int := 0
deriving DecidableEq, Repr

/-- The dataclass order: only `priority` has `compare=True`. -/
def taskLt (a b : ProcessingTask) : Bool := decide (a.priority < b.priority)

/-- The loop body of `heapq._siftdown(heap, startpos, pos)` with an
explicit structural fuel.  The loop runs `while pos > startpos` and each
iteration replaces `pos` by `(pos - 1) // 2 < pos`, so any
`fuel ≥ pos` never runs out and the result is fuel-independent. -/
def siftdownGo (newitem : ProcessingTask) (startpos : Nat) :
    Nat → List ProcessingTask → Nat → List ProcessingTask
  | 0, heap, pos => heap.set pos newitem
  | fuel + 1, heap, pos =>
    if startpos < pos then
      let parentpos := (pos - 1) / 2
      let parent := heap.getD parentpos newitem
      if taskLt newitem parent then
        siftdownGo newitem startpos fuel (heap.set pos parent) parentpos
      else heap.set pos newitem
    else heap.set pos newitem

/-- `heapq._siftdown(heap, startpos, pos)`: `newitem` (read from
`heap[pos]` by the caller) bubbles toward `startpos` while it compares
`<` its parent; parents move down; finally `newitem` is written. -/
def siftdownAux (newitem : ProcessingTask) (startpos : Nat)
    (heap : List ProcessingTask) (pos : Nat) : List ProcessingTask :=
  siftdownGo newitem startpos pos heap pos

/-- The loop body of `heapq._siftup(heap, pos)` with an explicit
structural fuel.  The loop runs `while childpos < endpos` and each
iteration moves `pos` to a child (strictly larger, below `endpos`), so
any `fuel ≥ heap.length - pos` never runs out. -/
def siftupGo (newitem : ProcessingTask) (startpos : Nat) :
    Nat → List ProcessingTask → Nat → List ProcessingTask
  | 0, heap, pos => siftdownAux newitem startpos (heap.set pos newitem) pos
  | fuel + 1, heap, pos =>
    let endpos := heap.length
    let childpos := 2 * pos + 1
    if childpos < endpos then
      let rightpos := childpos + 1
      let childpos2 := if rightpos < endpos ∧
          ¬ taskLt (heap.getD childpos newitem) (heap.getD rightpos newitem)
        then rightpos else childpos
      siftupGo newitem startpos fuel
        (heap.set pos (heap.getD childpos2 newitem)) childpos2
    else
      siftdownAux newitem startpos (heap.set pos newitem) pos

/-- `heapq._siftup(heap, pos)`: move the smaller child up until a leaf,
then sift the saved `newitem` back down from `startpos`. -/
def siftupAux (newitem : ProcessingTask) (startpos : Nat)
    (heap : List ProcessingTask) (pos : Nat) : List ProcessingTask :=
  siftupGo newitem startpos heap.length heap pos

/-- `heapq.heappush`. -/
def heappush (heap : List ProcessingTask) (item : ProcessingTask) :
    List ProcessingTask :=
  let h := heap ++ [item]
  siftdownAux item 0 h (h.length - 1)

/-- `heapq.heappop`: pop the last element; if the heap is still nonempty,
save the root as the return value, move the last element to the root and
sift it up.  `none` models the `IndexError` on an empty heap (never
reached through `Queue.get`). -/
def heappop (heap : List ProcessingTask) :
    Option (ProcessingTask × List ProcessingTask) :=
  match heap.getLast? with
  | none => none
  | some lastelt =>
    let rest := heap.dropLast
    if rest.isEmpty then some (lastelt, [])
    else some (rest.headD lastelt, siftupAux lastelt 0 (rest.set 0 lastelt) 0)

/-- Submitting a list of tasks in order (each `submit_task` is
`PriorityQueue.put`, i.e. `heappush`). -/
def pushAll (tasks : List ProcessingTask) : List ProcessingTask :=
  tasks.foldl heappush []

/-- Draining the queue through repeated `get` (`heappop`), collecting
`task_id`s in dequeue order. -/
def drainIds : List ProcessingTask → Nat → List String
  | _, 0 => []
  | heap, n + 1 =>
    match heappop heap with
    | none => []
    | some (t, h2) => t.task_id :: drainIds h2 n

/-- Draining the queue through repeated `get` (`heappop`), collecting the
dequeued tasks in order. -/
def drainTasks : List ProcessingTask → Nat → List ProcessingTask
  | _, 0 => []
  | heap, n + 1 =>
    match heappop heap with
    | none => []
    | some (t, h2) => t :: drainTasks h2 n

/-! ## async_processing.py: the worker -/

/-- The module-level names defined by services/ai_brain/embeddings.py.
`from .embeddings import name` succeeds exactly for these. -/
def embeddingsModuleNames : List String :=
  ["logger", "_embedding_model", "get_embedding_model", "embed_text",
   "embed_batch", "cosine_similarity", "_hash_based_embedding", "_embed_text"]

/-- `from .embeddings import n` at the top of a handler body. -/
def importFromEmbeddings (n : String) : Except PyErr Unit :=
  if embeddingsModuleNames.contains n then .ok () else .error (.importError n)

/-- A handler's return value. -/
inductive TaskResult where
  | embeddings (e : List (List ℚ)) : TaskResult
  | batchEmbeddings (e : List (List (List ℚ))) : TaskResult
  | indexed (count : Nat) : TaskResult
  | consolidated (count : Nat) : TaskResult
deriving DecidableEq, Repr

/-- `_process_embedding_task`: `from .embeddings import embed_texts_batch`
runs first and raises `ImportError` (embeddings.py defines `embed_batch`,
not `embed_texts_batch`), so the body below the import is unreachable. -/
def processEmbeddingTask (_data : TaskData) : Except PyErr TaskResult :=
  match importFromEmbeddings "embed_texts_batch" with
  | .error e => .error e
  | .ok _ => .ok (.embeddings [])

/-- `_process_batch_embedding_task`: same failing import, ahead of the
batch loop (so even an empty batch list raises). -/
def processBatchEmbeddingTask (_data : TaskData) : Except PyErr TaskResult :=
  match importFromEmbeddings "embed_texts_batch" with
  | .error e => .error e
  | .ok _ => .ok (.batchEmbeddings [])

/-- `_process_indexing_task`: returns `len(memories)` as the indexed
count; a payload without the `memories` key raises `KeyError`. -/
def processIndexingTask (data : TaskData) : Except PyErr TaskResult :=
  match data with
  | .memories n => .ok (.indexed n)
  | _ => .error .keyError

/-- `_process_task` dispatch (`task_handlers` lookup; unknown task types
raise `ValueError`).  The consolidation handler touches the database
session and is abstracted as the collaborator `consolidationH`. -/
def processTaskHandler (consolidationH : TaskData → Except PyErr TaskResult)
    (task_type : String) (data : TaskData) : Except PyErr TaskResult :=
  if task_type = "embedding" then processEmbeddingTask data
  else if task_type = "indexing" then processIndexingTask data
  else if task_type = "consolidation" then consolidationH data
  else if task_type = "batch_embedding" then processBatchEmbeddingTask data
  else .error .valueError

/-- `AsyncProcessingPipeline.processing_stats`. -/
structure PipelineStats where
  tasks_processed : Nat := 0
  tasks_failed : Nat := 0
  avg_processing_time : ℚ := 0
  queue_size : Nat := 0
deriving DecidableEq, Repr

/-- One dequeued task inside `_worker_loop` (lines 153-169): run
`_process_task`; on success increment `tasks_processed`, fold `elapsed`
into the rolling average and invoke the callback if present (its own
exceptions are swallowed); on any exception increment `tasks_failed` and
never reach the callback.  Returns the new stats and whether the callback
was invoked. -/
def workerStep (consolidationH : TaskData → Except PyErr TaskResult)
    (elapsed : ℚ) (queueSizeAfter : Nat) (stats : PipelineStats)
    (task : ProcessingTask) : PipelineStats × Bool :=
  match processTaskHandler consolidationH task.task_type task.data with
  | .ok _ =>
      let processed := stats.tasks_processed + 1
      let newAvg := (stats.avg_processing_time * (stats.tasks_processed : ℚ)
        + elapsed) / (processed : ℚ)
      let stats2 := { stats with
        tasks_processed := processed
        avg_processing_time := newAvg
        queue_size := queueSizeAfter }
      (stats2, task.hasCallback)
  | .error _ =>
      let stats2 := { stats with
        tasks_failed := stats.tasks_failed + 1
        queue_size := queueSizeAfter }
      (stats2, false)

/-! ## Derived definitions used by the verification -/

/-- The intended-effect projection of the consolidation stats: the fields
a dry run reports identically to a real run. -/
def statProj (s : ConsStats) : Nat × List (Option String × Nat) :=
  (s.consolidated, s.by_source)

/-- The invariant of the `defaultdict(list)` grouping fold: the groups of
the processed prefix are nonempty, carry their key's members in order,
have pairwise-distinct keys, and cover the prefix. -/
def GBInv (processed : List Memory)
    (acc : List (Option String × List Memory)) : Prop :=
  (∀ grp ∈ acc, grp.2 ≠ []) ∧
  (∀ grp ∈ acc, ∀ x ∈ grp.2, x.source = grp.1 ∧ x ∈ processed) ∧
  ((acc.map Prod.fst).Nodup) ∧
  (∀ x ∈ processed, ∀ grp ∈ acc, grp.1 = x.source → x ∈ grp.2) ∧
  (∀ x ∈ processed, ∃ grp ∈ acc, grp.1 = x.source)

/-- How many rows of `l` carry the summary tag of source `s`. -/
def countSummary (s : String) (l : List Memory) : Nat :=
  (l.filter (fun m => decide (m.source = some (s ++ "_summary")))).length

/-- Placeholder task used only as the (never-read) `getD` default. -/
def dummyTask : ProcessingTask :=
  { priority := 0, task_id := "", task_type := "", data := .partition_key "" }

/-- Priority stored at index `i` of the heap array. -/
def prioAt (h : List ProcessingTask) (i : Nat) : Int :=
  (h.getD i dummyTask).priority

/-- The binary-heap invariant of Python's `heapq` array: every non-root
entry is at least its parent. -/
def heapInv (h : List ProcessingTask) : Prop :=
  ∀ j, j < h.length → 0 < j → prioAt h ((j - 1) / 2) ≤ prioAt h j

instance (h : List ProcessingTask) : Decidable (heapInv h) := by
  unfold heapInv
  infer_instance

/-- Heap invariant with the bubble-up hole at `p`: all parent links hold
except possibly the one into `p`, and the children of `p` are bounded
below by `p`'s parent (when `p` has one). -/
def upExc (v : List ProcessingTask) (p : Nat) : Prop :=
  (∀ j, j < v.length → 0 < j → j ≠ p →
    prioAt v ((j - 1) / 2) ≤ prioAt v j) ∧
  (∀ j, j < v.length → 0 < j → (j - 1) / 2 = p → 0 < p →
    prioAt v ((p - 1) / 2) ≤ prioAt v j)

/-- Heap invariant with the trickle-down hole at `p` (whose slot holds
garbage): parent links not touching `p` hold, and the children of `p`
are bounded below by `p`'s parent (when `p` has one). -/
def downExc (a : List ProcessingTask) (p : Nat) : Prop :=
  (∀ j, j < a.length → 0 < j → j ≠ p → (j - 1) / 2 ≠ p →
    prioAt a ((j - 1) / 2) ≤ prioAt a j) ∧
  (∀ j, j < a.length → 0 < j → (j - 1) / 2 = p → 0 < p →
    prioAt a ((p - 1) / 2) ≤ prioAt a j)

/-- The old `"meds"` record of the C1 demonstration store. -/
def demoOldMed : Memory :=
  { created_at := 0, source := some "meds",
    text_blob := some "Took Aspirin 100mg",
    embedding_json := some (.vec [1]) }

/-- The young `"meds"` record of the C1 demonstration store. -/
def demoYoungMed : Memory :=
  { created_at := 2592000, source := some "meds",
    text_blob := some "Took Ibuprofen 200mg",
    embedding_json := some (.vec [1]) }

/-- The C1 demonstration store: one old and one young `"meds"` record
(the cutoff for `days_old = 30` at `now = 2592001` lies between them). -/
def demoStore : List Memory := [demoOldMed, demoYoungMed]

/-- The C1 demonstration run of the consolidation. -/
def demoConsolidate : List Memory × Except PyErr ConsStats :=
  consolidate_old_memories (fun _ => [1]) (fun _ => "d") (fun _ => "i")
    2592001 demoStore 30 100 false

/-! ## Helper lemmas -/

/-- A dry-run pass of the per-source consolidation loop never changes the
store, whatever the groups, the starting store and the accumulated
stats. -/
theorem consolidateGroups_dry_run_fst (embedFn : String → List ℚ)
    (dateFmt isoFmt : Int → String) (now : Int)
    (groups : List (Option String × List Memory)) (store : List Memory)
    (stats : ConsStats) :
    (consolidateGroups embedFn dateFmt isoFmt now true groups store stats).1
      = store := by
  induction groups generalizing stats with
  | nil => rfl
  | cons g rest ih =>
    obtain ⟨source, memories⟩ := g
    simp only [consolidateGroups]
    cases summarizeGroup dateFmt source memories with
    | error e => rfl
    | ok summary_text =>
      cases hL : memories.getLast? with
      | none => cases memories.head? <;> rfl
      | some atLast =>
        cases memories.head? with
        | none => rfl
        | some atFirst => simpa using ih _

/-- Dry-run and real consolidation runs agree on the projected stats (and
on the raised exception, if any), independently of the stores they act
on. -/
theorem consolidateGroups_dry_run_stats (embedFn : String → List ℚ)
    (dateFmt isoFmt : Int → String) (now : Int)
    (groups : List (Option String × List Memory))
    (store1 store2 : List Memory) (stats1 stats2 : ConsStats)
    (hproj : statProj stats1 = statProj stats2) :
    ((consolidateGroups embedFn dateFmt isoFmt now true groups store1
        stats1).2).map statProj
      = ((consolidateGroups embedFn dateFmt isoFmt now false groups store2
        stats2).2).map statProj := by
  induction groups generalizing store1 store2 stats1 stats2 with
  | nil => simpa [consolidateGroups, Except.map] using hproj
  | cons g rest ih =>
    obtain ⟨source, memories⟩ := g
    simp only [consolidateGroups]
    cases summarizeGroup dateFmt source memories with
    | error e => rfl
    | ok summary_text =>
      cases memories.getLast? with
      | none => cases memories.head? <;> rfl
      | some atLast =>
        cases memories.head? with
        | none => rfl
        | some atFirst =>
          simp only []
          apply ih
          have h2 : stats1.by_source = stats2.by_source := by
            have := congrArg Prod.snd hproj
            simpa [statProj] using this
          have h1 : stats1.consolidated = stats2.consolidated := by
            have := congrArg Prod.fst hproj
            simpa [statProj] using this
          simp [statProj, h1, h2]

/-! ## Helper lemmas: strings and grouping -/

/-- Right-cancellation of string concatenation. -/
theorem string_append_right_cancel {t s u : String} (h : t ++ u = s ++ u) :
    t = s := by
  apply String.ext
  have := congrArg String.data h
  rw [String.data_append, String.data_append] at this
  exact List.append_cancel_right this

/-- Appending the nonempty `"_summary"` suffix changes a string. -/
theorem ne_append_summary (s : String) : s ≠ s ++ "_summary" := by
  intro h
  have := congrArg String.length h
  rw [String.length_append] at this
  have h8 : "_summary".length = 8 := rfl
  omega

/-- One grouping step preserves the invariant. -/
theorem gbStep_inv {processed acc} (m : Memory)
    (H : GBInv processed acc) : GBInv (processed ++ [m]) (gbStep acc m) := by
  obtain ⟨h1, h2, h3, h4, h5⟩ := H
  unfold gbStep
  by_cases hany : acc.any (fun p => p.1 = m.source) = true
  · rw [if_pos hany]
    refine ⟨?_, ?_, ?_, ?_, ?_⟩
    · intro grp hgrp
      obtain ⟨grp0, hgrp0, hmap⟩ := List.mem_map.mp hgrp
      by_cases hk : grp0.1 = m.source
      · rw [if_pos hk] at hmap
        subst hmap
        simp
      · rw [if_neg hk] at hmap
        subst hmap
        exact h1 grp0 hgrp0
    · intro grp hgrp x hx
      obtain ⟨grp0, hgrp0, hmap⟩ := List.mem_map.mp hgrp
      by_cases hk : grp0.1 = m.source
      · rw [if_pos hk] at hmap
        subst hmap
        rcases List.mem_append.mp hx with hx | hx
        · obtain ⟨ha, hb⟩ := h2 grp0 hgrp0 x hx
          exact ⟨ha, List.mem_append_left _ hb⟩
        · rw [List.mem_singleton] at hx
          subst hx
          exact ⟨hk.symm, List.mem_append_right _ (List.mem_singleton.mpr rfl)⟩
      · rw [if_neg hk] at hmap
        subst hmap
        obtain ⟨ha, hb⟩ := h2 grp0 hgrp0 x hx
        exact ⟨ha, List.mem_append_left _ hb⟩
    · have : (List.map Prod.fst (acc.map (fun p =>
          if p.1 = m.source then (p.1, p.2 ++ [m]) else p)))
          = acc.map Prod.fst := by
        rw [List.map_map]
        apply List.map_congr_left
        intro p _
        by_cases hk : p.1 = m.source <;> simp [hk]
      rw [this]
      exact h3
    · intro x hx grp hgrp hkey
      obtain ⟨grp0, hgrp0, hmap⟩ := List.mem_map.mp hgrp
      rcases List.mem_append.mp hx with hx | hx
      · by_cases hk : grp0.1 = m.source
        · rw [if_pos hk] at hmap
          subst hmap
          have : x ∈ grp0.2 := h4 x hx grp0 hgrp0 (by simpa using hkey)
          exact List.mem_append_left _ this
        · rw [if_neg hk] at hmap
          subst hmap
          exact h4 x hx grp0 hgrp0 hkey
      · rw [List.mem_singleton] at hx
        subst hx
        by_cases hk : grp0.1 = x.source
        · rw [if_pos hk] at hmap
          subst hmap
          exact List.mem_append_right _ (List.mem_singleton.mpr rfl)
        · rw [if_neg hk] at hmap
          subst hmap
          exact absurd (hkey.trans rfl) hk
    · intro x hx
      rcases List.mem_append.mp hx with hx | hx
      · obtain ⟨grp0, hgrp0, hkey⟩ := h5 x hx
        by_cases hk : grp0.1 = m.source
        · exact ⟨(grp0.1, grp0.2 ++ [m]), List.mem_map.mpr
            ⟨grp0, hgrp0, by rw [if_pos hk]⟩, hkey⟩
        · exact ⟨grp0, List.mem_map.mpr
            ⟨grp0, hgrp0, by rw [if_neg hk]⟩, hkey⟩
      · rw [List.mem_singleton] at hx
        subst hx
        obtain ⟨grp0, hgrp0, hkey⟩ := List.any_eq_true.mp hany
        have hk : grp0.1 = x.source := of_decide_eq_true hkey
        exact ⟨(grp0.1, grp0.2 ++ [x]), List.mem_map.mpr
          ⟨grp0, hgrp0, by rw [if_pos hk]⟩, hk⟩
  · rw [if_neg hany]
    refine ⟨?_, ?_, ?_, ?_, ?_⟩
    · intro grp hgrp
      rcases List.mem_append.mp hgrp with h | h
      · exact h1 grp h
      · rw [List.mem_singleton] at h
        subst h
        simp
    · intro grp hgrp x hx
      rcases List.mem_append.mp hgrp with h | h
      · obtain ⟨ha, hb⟩ := h2 grp h x hx
        exact ⟨ha, List.mem_append_left _ hb⟩
      · rw [List.mem_singleton] at h
        subst h
        rw [List.mem_singleton] at hx
        subst hx
        exact ⟨rfl, List.mem_append_right _ (List.mem_singleton.mpr rfl)⟩
    · rw [List.map_append]
      refine List.Nodup.append h3 (by simp) ?_
      intro a ha hb
      simp only [List.map_cons, List.map_nil, List.mem_singleton] at hb
      subst hb
      obtain ⟨grp0, hgrp0, hkey⟩ := List.mem_map.mp ha
      exact absurd (List.any_eq_true.mpr
        ⟨grp0, hgrp0, by simp [hkey]⟩) hany
    · intro x hx grp hgrp hkey
      rcases List.mem_append.mp hx with hx | hx
      · rcases List.mem_append.mp hgrp with h | h
        · exact h4 x hx grp h hkey
        · rw [List.mem_singleton] at h
          subst h
          obtain ⟨grp0, hgrp0, hk0⟩ := h5 x hx
          have : grp0.1 = m.source := by
            rw [hk0]
            simpa using hkey.symm
          exact absurd (List.any_eq_true.mpr
            ⟨grp0, hgrp0, by simp [this]⟩) hany
      · rw [List.mem_singleton] at hx
        subst hx
        rcases List.mem_append.mp hgrp with h | h
        · exact absurd (List.any_eq_true.mpr
            ⟨grp, h, by simp [hkey]⟩) hany
        · rw [List.mem_singleton] at h
          subst h
          simp
    · intro x hx
      rcases List.mem_append.mp hx with hx | hx
      · obtain ⟨grp0, hgrp0, hk⟩ := h5 x hx
        exact ⟨grp0, List.mem_append_left _ hgrp0, hk⟩
      · rw [List.mem_singleton] at hx
        subst hx
        exact ⟨(x.source, [x]),
          List.mem_append_right _ (List.mem_singleton.mpr rfl), rfl⟩

/-- The grouping fold preserves the invariant over any suffix. -/
theorem gbFold_inv (l : List Memory) :
    ∀ processed acc, GBInv processed acc →
      GBInv (processed ++ l) (l.foldl gbStep acc) := by
  induction l with
  | nil => intro processed acc H; simpa using H
  | cons m rest ih =>
    intro processed acc H
    have := ih (processed ++ [m]) (gbStep acc m) (gbStep_inv m H)
    simpa using this

/-- The invariant holds of `groupBySource`. -/
theorem groupBySource_inv (l : List Memory) : GBInv l (groupBySource l) := by
  have := gbFold_inv l [] [] ⟨by simp, by simp, by simp, by simp, by simp⟩
  simpa [groupBySource] using this

/-! ## Helper lemmas: consolidation -/

/-- Stride sampling picks elements of the list. -/
theorem strideSlice_subset {x : Memory} {xs : List Memory} {step : Nat}
    (h : x ∈ strideSlice xs step) : x ∈ xs := by
  unfold strideSlice at h
  obtain ⟨i, _, hi⟩ := List.mem_filterMap.mp h
  split at hi
  · exact List.get?_mem hi
  · exact absurd hi (by simp)

/-- Sampling lines succeed when every sampled record has text. -/
theorem sampledLines_ok {l : List Memory}
    (h : ∀ m ∈ l, m.text_blob ≠ none) : ∃ ls, sampledLines l = .ok ls := by
  induction l with
  | nil => exact ⟨[], rfl⟩
  | cons m ms ih =>
    obtain ⟨ls, hls⟩ := ih (fun x hx => h x (List.mem_cons_of_mem m hx))
    have hm := h m (List.mem_cons_self m ms)
    cases htb : m.text_blob with
    | none => exact absurd htb hm
    | some t =>
      refine ⟨s!"  - {t.take 100}" :: ls, ?_⟩
      simp only [sampledLines, sliceTextBlob, htb, hls]
      rfl

/-- The per-group digest succeeds on a nonempty group whose records all
have text. -/
theorem summarizeGroup_ok (dateFmt : Int → String) (k : Option String)
    {mems : List Memory} (hne : mems ≠ [])
    (htxt : ∀ m ∈ mems, m.text_blob ≠ none) :
    ∃ txt, summarizeGroup dateFmt k mems = .ok txt := by
  obtain ⟨lastm, hlast⟩ :=
    Option.isSome_iff_exists.mp (List.getLast?_isSome.mpr hne)
  obtain ⟨headm, hhead⟩ :=
    Option.isSome_iff_exists.mp (List.head?_isSome.mpr hne)
  have hs : ∀ m ∈ (strideSlice mems
      (if 0 < min 10 mems.length then mems.length / min 10 mems.length
        else 1)).take (min 10 mems.length), m.text_blob ≠ none :=
    fun m hm => htxt m (strideSlice_subset (List.mem_of_mem_take hm))
  obtain ⟨ls, hls⟩ := sampledLines_ok hs
  unfold summarizeGroup
  rw [hlast, hhead]
  simp only [bind, Except.bind, hls]
  exact ⟨_, rfl⟩

/-- Filtering away rows that are never summary-tagged keeps the summary
count. -/
theorem countSummary_filter (s : String) (l : List Memory)
    (p : Memory → Bool)
    (h : ∀ x ∈ l, x.source = some (s ++ "_summary") → p x = true) :
    countSummary s (l.filter p) = countSummary s l := by
  unfold countSummary
  rw [List.filter_filter]
  congr 1
  apply List.filter_congr
  intro x hx
  by_cases hsrc : x.source = some (s ++ "_summary")
  · simp [hsrc, h x hx hsrc]
  · simp [hsrc]

/-- Summary count distributes over append. -/
theorem countSummary_append (s : String) (l1 l2 : List Memory) :
    countSummary s (l1 ++ l2) = countSummary s l1 + countSummary s l2 := by
  unfold countSummary
  rw [List.filter_append, List.length_append]

/-- With pairwise-distinct keys, exactly one group carries a present
key. -/
theorem filter_key_unique {gs : List (Option String × List Memory)}
    (hnd : (gs.map Prod.fst).Nodup) {k : Option String}
    (hex : ∃ grp ∈ gs, grp.1 = k) :
    (gs.filter (fun grp => decide (grp.1 = k))).length = 1 := by
  induction gs with
  | nil => simp at hex
  | cons g rest ih =>
    rw [List.map_cons, List.nodup_cons] at hnd
    by_cases hk : g.1 = k
    · have hrest : rest.filter (fun grp => decide (grp.1 = k)) = [] := by
        rw [List.filter_eq_nil_iff]
        intro grp hgrp
        simp only [decide_eq_true_eq]
        intro hgk
        exact hnd.1 (List.mem_map.mpr ⟨grp, hgrp, hgk.trans hk.symm⟩)
      simp [List.filter_cons, hk, hrest]
    · obtain ⟨grp, hgrp, hgk⟩ := hex
      rcases List.mem_cons.mp hgrp with rfl | hgrp'
      · exact absurd hgk hk
      · have := ih hnd.2 ⟨grp, hgrp', hgk⟩
        simp [List.filter_cons, hk, this]

/-- The non-dry per-source loop, run over well-formed groups (nonempty,
all records with text, members carrying their key, keys present and never
themselves a summary tag for `s`): it raises nothing, its resulting store
consists of the untouched non-member originals plus one private summary
per group, and the number of rows tagged `{s}_summary` grows by exactly
the number of groups keyed `s`. -/
theorem consolidateGroups_spec (embedFn : String → List ℚ)
    (dateFmt isoFmt : Int → String) (now : Int) (s : String) :
    ∀ (gs : List (Option String × List Memory)) (store : List Memory)
      (stats : ConsStats),
    (∀ grp ∈ gs, grp.2 ≠ []) →
    (∀ grp ∈ gs, ∀ m ∈ grp.2, m.text_blob ≠ none) →
    (∀ grp ∈ gs, ∀ m ∈ grp.2, m.source = grp.1) →
    (∀ grp ∈ gs, grp.1 ≠ none) →
    (∀ grp ∈ gs, grp.1 ≠ some (s ++ "_summary")) →
    (∃ stats2, (consolidateGroups embedFn dateFmt isoFmt now false gs store
        stats).2 = .ok stats2) ∧
    (∀ x ∈ (consolidateGroups embedFn dateFmt isoFmt now false gs store
        stats).1,
      (x ∈ store ∧ ∀ grp ∈ gs, x ∉ grp.2) ∨
      (∃ t, (∃ grp ∈ gs, grp.1 = some t) ∧
        x.source = some (t ++ "_summary") ∧
        x.privacy_label = some "private")) ∧
    countSummary s
        (consolidateGroups embedFn dateFmt isoFmt now false gs store stats).1
      = countSummary s store
        + (gs.filter (fun grp => decide (grp.1 = some s))).length := by
  intro gs
  induction gs with
  | nil =>
    intro store stats _ _ _ _ _
    refine ⟨⟨stats, rfl⟩, ?_, by simp [consolidateGroups]⟩
    intro x hx
    exact Or.inl ⟨hx, by simp⟩
  | cons g rest ih =>
    obtain ⟨k, mems⟩ := g
    intro store stats hne htxt hsrc hksome hktag
    have hne1 : mems ≠ [] := hne (k, mems) (List.mem_cons_self _ _)
    have htxt1 : ∀ m ∈ mems, m.text_blob ≠ none :=
      htxt (k, mems) (List.mem_cons_self _ _)
    obtain ⟨txt, hsum⟩ := summarizeGroup_ok dateFmt k hne1 htxt1
    obtain ⟨lastm, hlast⟩ :=
      Option.isSome_iff_exists.mp (List.getLast?_isSome.mpr hne1)
    obtain ⟨headm, hhead⟩ :=
      Option.isSome_iff_exists.mp (List.head?_isSome.mpr hne1)
    obtain ⟨t, rfl⟩ : ∃ t, k = some t := by
      cases hk : k with
      | none => exact absurd hk (hksome (k, mems) (List.mem_cons_self _ _))
      | some t => exact ⟨t, rfl⟩
    -- reduce one step of the loop
    rw [consolidateGroups, hsum, hlast, hhead]
    dsimp only
    simp only [Bool.false_eq_true, if_false]
    set summaryMem : Memory := {
      id := none,
      created_at := now,
      source := some (pyStrOpt (some t) ++ "_summary"),
      modality := some "text",
      text_blob := some txt,
      metadata_json := some (summaryMetadataJson isoFmt mems.length
        lastm.created_at headm.created_at),
      embedding_json := some (.vec (embed_text embedFn (some txt))),
      privacy_label := some "private",
      ttl_seconds := none } with hsummary
    set store1 : List Memory :=
      (store.filter (fun r => !(mems.contains r))) ++ [summaryMem]
      with hstore1
    obtain ⟨IH1, IH2, IH3⟩ := ih store1
      { stats with
        summaries_created := stats.summaries_created + 1,
        deleted := stats.deleted + mems.length,
        by_source := stats.by_source ++ [(some t, mems.length)],
        consolidated := stats.consolidated + mems.length }
      (fun grp hgrp => hne grp (List.mem_cons_of_mem _ hgrp))
      (fun grp hgrp => htxt grp (List.mem_cons_of_mem _ hgrp))
      (fun grp hgrp => hsrc grp (List.mem_cons_of_mem _ hgrp))
      (fun grp hgrp => hksome grp (List.mem_cons_of_mem _ hgrp))
      (fun grp hgrp => hktag grp (List.mem_cons_of_mem _ hgrp))
    refine ⟨IH1, ?_, ?_⟩
    · intro x hx
      rcases IH2 x hx with ⟨hx1, hnotin⟩ | ⟨t2, hex, hs2, hp2⟩
      · rw [hstore1] at hx1
        rcases List.mem_append.mp hx1 with hx2 | hx2
        · obtain ⟨hxs, hxc⟩ := List.mem_filter.mp hx2
          refine Or.inl ⟨hxs, ?_⟩
          intro grp hgrp
          rcases List.mem_cons.mp hgrp with rfl | hgrp'
          · intro hxm
            have hcx : mems.contains x = true :=
              List.contains_iff_exists_mem_beq.mpr ⟨x, hxm, by simp⟩
            simp only [Bool.not_eq_true', List.contains, List.elem_eq_mem,
              decide_eq_false_iff_not] at hxc
            exact hxc hxm
          · exact hnotin grp hgrp'
        · rw [List.mem_singleton] at hx2
          subst hx2
          exact Or.inr ⟨t, ⟨(some t, mems), List.mem_cons_self _ _, rfl⟩,
            rfl, rfl⟩
      · exact Or.inr ⟨t2, ⟨hex.choose, List.mem_cons_of_mem _
          hex.choose_spec.1, hex.choose_spec.2⟩, hs2, hp2⟩
    · rw [IH3, hstore1, countSummary_append]
      have hfa : countSummary s
          (store.filter (fun r => !(mems.contains r))) = countSummary s store := by
        apply countSummary_filter
        intro x hxs hxtag
        rw [Bool.not_eq_eq_eq_not, Bool.not_true, ← Bool.not_eq_true]
        intro hc
        have hxm : x ∈ mems := by
          obtain ⟨y, hy, hbeq⟩ := List.contains_iff_exists_mem_beq.mp hc
          have : x = y := by simpa using hbeq
          exact this ▸ hy
        have := hsrc (some t, mems) (List.mem_cons_self _ _) x hxm
        dsimp at this
        rw [this] at hxtag
        exact hktag (some t, mems) (List.mem_cons_self _ _) (by simpa using hxtag)
      rw [hfa]
      have hone : countSummary s [summaryMem]
          = if t = s then 1 else 0 := by
        rw [hsummary]
        by_cases hts : t = s
        · subst hts
          simp [countSummary, pyStrOpt]
        · have : ¬ (t ++ "_summary" = s ++ "_summary") :=
            fun h => hts (string_append_right_cancel h)
          simp [countSummary, pyStrOpt, this, hts]
      rw [hone]
      have hcons : ((( (some t : Option String), mems) :: rest).filter
          (fun grp => decide (grp.1 = some s))).length
          = (if t = s then 1 else 0)
            + (rest.filter (fun grp => decide (grp.1 = some s))).length := by
        by_cases hts : t = s
        · subst hts
          simp [List.filter_cons]
          omega
        · simp [List.filter_cons, hts]
      rw [hcons]
      omega

/-! ## Helper lemmas: search membership -/

/-- Membership through a guarded filter stage. -/
theorem mem_maybeFilter {x : Memory} {b : Bool} {p : Memory → Bool}
    {l : List Memory} (h : x ∈ maybeFilter b p l) :
    x ∈ l ∧ (b = true → p x = true) := by
  unfold maybeFilter at h
  by_cases hb : b = true
  · rw [if_pos hb] at h
    obtain ⟨h1, h2⟩ := List.mem_filter.mp h
    exact ⟨h1, fun _ => h2⟩
  · rw [if_neg hb] at h
    exact ⟨h, fun hb2 => absurd hb2 hb⟩

/-- Membership through the time-window stage. -/
theorem mem_timeWindowFilter {x : Memory} {now : Int} {twd : Option Int}
    {l : List Memory} (h : x ∈ timeWindowFilter now twd l) : x ∈ l := by
  unfold timeWindowFilter at h
  cases twd with
  | none => exact h
  | some d =>
    dsimp only at h
    cases hb : (d != 0) with
    | false =>
      rw [hb] at h
      simpa using h
    | true =>
      rw [hb] at h
      simp only [if_true] at h
      exact (List.mem_filter.mp h).1

/-- What a successful scoring step pins down. -/
theorem scoreRecord_some {fsqrt : ℚ → ℚ} {qe : List ℚ} {ms : ℚ}
    {memory : Memory} {p : Memory × ℚ}
    (h : scoreRecord fsqrt qe ms memory = some p) :
    p.1 = memory ∧ ms ≤ p.2 := by
  unfold scoreRecord at h
  rcases hemb : memory.embedding_json with _ | ej
  · rw [hemb] at h
    exact absurd h (by simp)
  · rcases ej with v | _
    · rw [hemb] at h
      dsimp only at h
      split at h
      · rename_i hge
        cases h
        exact ⟨rfl, by simpa using hge⟩
      · exact absurd h (by simp)
    · rw [hemb] at h
      exact absurd h (by simp)

/-- Every pair a search returns comes from a stored row, and under a
truthy source filter the row's `source` equals the filter. -/
theorem search_result_mem {embedFn : String → List ℚ} {fsqrt : ℚ → ℚ}
    {now : Int} {query : String} {store : List Memory} {limit : Nat}
    {pf sf : Option String} {ms : ℚ} {twd : Option Int} {p : Memory × ℚ}
    (h : p ∈ search_memories embedFn fsqrt now query store limit pf sf
      ms twd) :
    p.1 ∈ store ∧ (pyTruthyStr sf = true → (p.1.source == sf) = true) := by
  unfold search_memories at h
  dsimp only at h
  have h1 := List.mem_of_mem_take h
  rw [List.mem_mergeSort, List.mem_filterMap] at h1
  obtain ⟨x, hx, hsc⟩ := h1
  obtain ⟨hp1, _⟩ := scoreRecord_some hsc
  unfold searchCandidates at hx
  dsimp only at hx
  have hx3 := (List.mem_filter.mp hx).1
  have hx2 := mem_timeWindowFilter hx3
  have hq2 := mem_maybeFilter hx2
  have hq1 := mem_maybeFilter hq2.1
  exact ⟨hp1 ▸ hq1.1, fun htr => hp1 ▸ hq2.2 htr⟩

/-- If no stored row matches a truthy source filter, the search is
empty. -/
theorem search_empty_of_no_source_match (embedFn : String → List ℚ)
    (fsqrt : ℚ → ℚ) (now : Int) (query : String) (store : List Memory)
    (limit : Nat) (pf sf : Option String) (ms : ℚ) (twd : Option Int)
    (htr : pyTruthyStr sf = true)
    (h : ∀ m ∈ store, (m.source == sf) = false) :
    search_memories embedFn fsqrt now query store limit pf sf ms twd
      = [] := by
  unfold search_memories searchCandidates
  dsimp only
  have hq2 : maybeFilter (pyTruthyStr sf) (fun m => m.source == sf)
      (maybeFilter (pyTruthyStr pf) (fun m => m.privacy_label == pf) store)
      = [] := by
    unfold maybeFilter
    rw [if_pos htr]
    rw [List.filter_eq_nil_iff]
    intro m hm
    have hms : m ∈ store := (mem_maybeFilter (by
      unfold maybeFilter
      exact hm)).1
    simp [h m hms]
  rw [hq2]
  have htw : timeWindowFilter now twd [] = [] := by
    unfold timeWindowFilter
    cases twd with
    | none => rfl
    | some d => split <;> simp
  rw [htw]
  simp [List.mergeSort]

/-! ## Helper lemmas: the binary heap of the task queue -/

/-- `getD` at an in-range index ignores the default. -/
theorem getD_irrel {l : List ProcessingTask} {i : Nat} (h : i < l.length)
    (d1 d2 : ProcessingTask) : l.getD i d1 = l.getD i d2 := by
  rw [List.getD_eq_getElem?_getD, List.getD_eq_getElem?_getD,
    List.getElem?_eq_getElem h]
  rfl

/-- `getD` after `set` at the same in-range index. -/
theorem getD_set_self {l : List ProcessingTask} {i : Nat}
    (h : i < l.length) (a d : ProcessingTask) :
    (l.set i a).getD i d = a := by
  rw [List.getD_eq_getElem?_getD, List.getElem?_set_self h]
  rfl

/-- `getD` after `set` at a different index. -/
theorem getD_set_ne {l : List ProcessingTask} {i j : Nat} (hij : i ≠ j)
    (a d : ProcessingTask) : (l.set i a).getD j d = l.getD j d := by
  rw [List.getD_eq_getElem?_getD, List.getD_eq_getElem?_getD,
    List.getElem?_set_ne hij]

/-- Elements after a `set` come from the written value or the old list. -/
theorem mem_of_mem_set : ∀ {l : List ProcessingTask} {i : Nat}
    {a x : ProcessingTask}, x ∈ l.set i a → x = a ∨ x ∈ l := by
  intro l
  induction l with
  | nil => intro i a x hx; simp at hx
  | cons y ys ih =>
    intro i a x hx
    cases i with
    | zero =>
      rw [List.set_cons_zero] at hx
      rcases List.mem_cons.mp hx with rfl | hx
      · exact Or.inl rfl
      · exact Or.inr (List.mem_cons_of_mem _ hx)
    | succ n =>
      rw [List.set_cons_succ] at hx
      rcases List.mem_cons.mp hx with rfl | hx
      · exact Or.inr (List.mem_cons_self _ _)
      · rcases ih hx with h | h
        · exact Or.inl h
        · exact Or.inr (List.mem_cons_of_mem _ h)

/-- The root of a heap is a minimum (by index). -/
theorem heapInv_root_le {h : List ProcessingTask} (H : heapInv h) :
    ∀ j, j < h.length → prioAt h 0 ≤ prioAt h j := by
  intro j
  induction j using Nat.strong_induction_on with
  | _ j ih =>
    intro hj
    cases Nat.eq_zero_or_pos j with
    | inl h0 => rw [h0]
    | inr hpos =>
      have hpar : (j - 1) / 2 < j := by omega
      exact le_trans (ih _ hpar (lt_trans hpar hj)) (H j hj hpos)

/-- The root of a heap is a minimum (by membership). -/
theorem heapInv_root_min {h : List ProcessingTask} (H : heapInv h) :
    ∀ x ∈ h, prioAt h 0 ≤ x.priority := by
  intro x hx
  obtain ⟨j, hj, hget⟩ := List.mem_iff_getElem.mp hx
  have : prioAt h j = x.priority := by
    unfold prioAt
    rw [List.getD_eq_getElem?_getD, List.getElem?_eq_getElem hj]
    rw [hget]
    rfl
  rw [← this]
  exact heapInv_root_le H j hj

/-- Python's `_siftdown` (with `startpos = 0`, the only value the
pipeline uses) restores the heap invariant from a bubble-up hole, and
preserves the array length. -/
theorem siftdownGo_spec (newitem : ProcessingTask) :
    ∀ (fuel : Nat) (heap : List ProcessingTask) (pos : Nat),
    pos < heap.length → pos ≤ fuel →
    upExc (heap.set pos newitem) pos →
    heapInv (siftdownGo newitem 0 fuel heap pos) ∧
    (siftdownGo newitem 0 fuel heap pos).length = heap.length := by
  intro fuel
  induction fuel with
  | zero =>
    intro heap pos hlen hfuel H
    have hpos0 : pos = 0 := Nat.le_zero.mp hfuel
    subst hpos0
    rw [siftdownGo]
    refine ⟨?_, by simp⟩
    intro j hj hj0
    rw [List.length_set] at hj
    exact H.1 j (by simpa using hj) hj0 (Nat.pos_iff_ne_zero.mp hj0)
  | succ fuel ih =>
    intro heap pos hlen hfuel H
    rw [siftdownGo]
    by_cases hpos : 0 < pos
    · rw [if_pos hpos]
      dsimp only
      set parentpos := (pos - 1) / 2 with hpp
      set parent := heap.getD parentpos dummyTask with hpar
      have hppos : parentpos < pos := by omega
      have hpplen : parentpos < heap.length := lt_trans hppos hlen
      have hgetpar : heap.getD parentpos newitem = parent :=
        getD_irrel hpplen _ _
      rw [hgetpar]
      -- values of the virtual array v = heap.set pos newitem
      have hvp : prioAt (heap.set pos newitem) pos = newitem.priority := by
        unfold prioAt
        rw [getD_set_self hlen]
      have hvq : ∀ i, i ≠ pos →
          prioAt (heap.set pos newitem) i = prioAt heap i := by
        intro i hi
        unfold prioAt
        rw [getD_set_ne (fun he => hi he.symm)]
      by_cases hlt : taskLt newitem parent = true
      · rw [if_pos hlt]
        have hltp : newitem.priority < parent.priority := by
          simpa [taskLt] using hlt
        -- apply the induction hypothesis at the parent position
        have hlen2 : parentpos < (heap.set pos parent).length := by
          simpa using hpplen
        refine (?_ : upExc ((heap.set pos parent).set parentpos newitem)
            parentpos →
          heapInv (siftdownGo newitem 0 fuel (heap.set pos parent)
            parentpos) ∧
          (siftdownGo newitem 0 fuel (heap.set pos parent) parentpos).length
            = heap.length) ?_
        · intro H2
          have := ih (heap.set pos parent) parentpos hlen2 (by omega) H2
          refine ⟨this.1, by simpa using this.2⟩
        -- establish the invariant for the moved hole
        have hppne : parentpos ≠ pos := Nat.ne_of_lt hppos
        have hwp : ∀ i, i ≠ pos → i ≠ parentpos →
            prioAt ((heap.set pos parent).set parentpos newitem) i
              = prioAt heap i := by
          intro i h1 h2
          unfold prioAt
          rw [getD_set_ne (fun he => h2 he.symm),
            getD_set_ne (fun he => h1 he.symm)]
        have hwpar : prioAt ((heap.set pos parent).set parentpos newitem)
            parentpos = newitem.priority := by
          unfold prioAt
          rw [getD_set_self (by simpa using hpplen)]
        have hwpos : prioAt ((heap.set pos parent).set parentpos newitem)
            pos = parent.priority := by
          unfold prioAt
          rw [getD_set_ne hppne, getD_set_self hlen]
        have hvpar : prioAt (heap.set pos newitem) parentpos
            = parent.priority := by
          rw [hvq parentpos hppne, hpar]
          rfl
        constructor
        · -- links except into the new hole
          intro j hj hj0 hjne
          rw [List.length_set, List.length_set] at hj
          by_cases hjpos : j = pos
          · subst hjpos
            rw [hwpos]
            have : (j - 1) / 2 = parentpos := hpp
            rw [this, hwpar]
            exact le_of_lt hltp
          · by_cases hpj : (j - 1) / 2 = pos
            · rw [hpj, hwpos, hwp j hjpos hjne]
              have := H.2 j (by simpa using hj) hj0 hpj hpos
              rw [hvq j hjpos, ← hpp, hvpar] at this
              exact this
            · by_cases hpj2 : (j - 1) / 2 = parentpos
              · rw [hpj2, hwpar, hwp j hjpos hjne]
                have := H.1 j (by simpa using hj) hj0 hjpos
                rw [hvq j hjpos, hpj2, hvpar] at this
                exact le_trans (le_of_lt hltp) this
              · rw [hwp j hjpos hjne, hwp _ hpj hpj2]
                have := H.1 j (by simpa using hj) hj0 hjpos
                rw [hvq j hjpos, hvq _ hpj] at this
                exact this
        · -- children of the new hole vs the grandparent
          intro j hj hj0 hpj hpppos
          rw [List.length_set, List.length_set] at hj
          have hgpne1 : (parentpos - 1) / 2 ≠ pos := by omega
          have hgpne2 : (parentpos - 1) / 2 ≠ parentpos := by omega
          rw [hwp _ hgpne1 hgpne2]
          have hparlink := H.1 parentpos (by simpa using hpplen) hpppos hppne
          rw [hvq _ (by omega), hvpar] at hparlink
          by_cases hjpos : j = pos
          · subst hjpos
            rw [hwpos]
            exact hparlink
          · rw [hwp j hjpos (by omega)]
            have := H.1 j (by simpa using hj) hj0 hjpos
            rw [hvq j hjpos, hpj, hvpar] at this
            exact le_trans hparlink this
      · rw [if_neg hlt]
        have hle : parent.priority ≤ newitem.priority := by
          simp only [taskLt, decide_eq_true_eq] at hlt
          omega
        refine ⟨?_, by simp⟩
        intro j hj hj0
        rw [List.length_set] at hj
        by_cases hjpos : j = pos
        · subst hjpos
          rw [hvp, ← hpp, hvq parentpos (by omega)]
          show (heap.getD parentpos dummyTask).priority ≤ newitem.priority
          rw [← hpar]
          exact hle
        · exact H.1 j (by simpa using hj) hj0 hjpos
    · rw [if_neg hpos]
      have hpos0 : pos = 0 := by omega
      subst hpos0
      refine ⟨?_, by simp⟩
      intro j hj hj0
      rw [List.length_set] at hj
      exact H.1 j (by simpa using hj) hj0 (Nat.pos_iff_ne_zero.mp hj0)

/-- A `getD` read is an element or the default. -/
theorem getD_mem_or (l : List ProcessingTask) (i : Nat)
    (d : ProcessingTask) : l.getD i d ∈ l ∨ l.getD i d = d := by
  by_cases hi : i < l.length
  · left
    rw [List.getD_eq_getElem?_getD, List.getElem?_eq_getElem hi]
    exact List.getElem_mem hi
  · right
    rw [List.getD_eq_getElem?_getD, List.getElem?_eq_none (by omega)]
    rfl

/-- Everything in a `_siftdown` result is the new item or an old
element. -/
theorem siftdownGo_mem (newitem : ProcessingTask) (sp : Nat) :
    ∀ (fuel : Nat) (heap : List ProcessingTask) (pos : Nat)
      (x : ProcessingTask), x ∈ siftdownGo newitem sp fuel heap pos →
      x = newitem ∨ x ∈ heap := by
  intro fuel
  induction fuel with
  | zero =>
    intro heap pos x hx
    rw [siftdownGo] at hx
    rcases mem_of_mem_set hx with h | h
    · exact Or.inl h
    · exact Or.inr h
  | succ fuel ih =>
    intro heap pos x hx
    rw [siftdownGo] at hx
    by_cases hpos : sp < pos
    · rw [if_pos hpos] at hx
      dsimp only at hx
      by_cases hlt : taskLt newitem (heap.getD ((pos - 1) / 2) newitem)
          = true
      · rw [if_pos hlt] at hx
        rcases ih _ _ _ hx with h | h
        · exact Or.inl h
        · rcases mem_of_mem_set h with h2 | h2
          · rcases getD_mem_or heap ((pos - 1) / 2) newitem with h3 | h3
            · exact Or.inr (h2 ▸ h3)
            · exact Or.inl (h2.trans h3)
          · exact Or.inr h2
      · rw [if_neg hlt] at hx
        rcases mem_of_mem_set hx with h | h
        · exact Or.inl h
        · exact Or.inr h
    · rw [if_neg hpos] at hx
      rcases mem_of_mem_set hx with h | h
      · exact Or.inl h
      · exact Or.inr h

/-- Everything in a `_siftup` result is the new item or an old
element. -/
theorem siftupGo_mem (newitem : ProcessingTask) (sp : Nat) :
    ∀ (fuel : Nat) (heap : List ProcessingTask) (pos : Nat)
      (x : ProcessingTask), x ∈ siftupGo newitem sp fuel heap pos →
      x = newitem ∨ x ∈ heap := by
  intro fuel
  induction fuel with
  | zero =>
    intro heap pos x hx
    rw [siftupGo] at hx
    rcases siftdownGo_mem newitem sp _ _ _ _ hx with h | h
    · exact Or.inl h
    · rcases mem_of_mem_set h with h2 | h2
      · exact Or.inl h2
      · exact Or.inr h2
  | succ fuel ih =>
    intro heap pos x hx
    rw [siftupGo] at hx
    dsimp only at hx
    by_cases hc : 2 * pos + 1 < heap.length
    · rw [if_pos hc] at hx
      rcases ih _ _ _ hx with h | h
      · exact Or.inl h
      · rcases mem_of_mem_set h with h2 | h2
        · rcases getD_mem_or heap _ newitem with h3 | h3
          · exact Or.inr (h2 ▸ h3)
          · exact Or.inl (h2.trans h3)
        · exact Or.inr h2
    · rw [if_neg hc] at hx
      rcases siftdownGo_mem newitem sp _ _ _ _ hx with h | h
      · exact Or.inl h
      · rcases mem_of_mem_set h with h2 | h2
        · exact Or.inl h2
        · exact Or.inr h2

/-- Python's `_siftup` (with `startpos = 0`): trickle the hole down to a
leaf, write the new item there and bubble it up; restores the heap
invariant from a trickle-down hole and preserves the length. -/
theorem siftupGo_spec (newitem : ProcessingTask) :
    ∀ (fuel : Nat) (heap : List ProcessingTask) (pos : Nat),
    pos < heap.length → heap.length ≤ fuel + pos →
    downExc heap pos →
    heapInv (siftupGo newitem 0 fuel heap pos) ∧
    (siftupGo newitem 0 fuel heap pos).length = heap.length := by
  intro fuel
  induction fuel with
  | zero =>
    intro heap pos hlen hfuel _
    omega
  | succ fuel ih =>
    intro heap pos hlen hfuel H
    rw [siftupGo]
    dsimp only
    by_cases hc : 2 * pos + 1 < heap.length
    · rw [if_pos hc]
      set n := heap.length with hn
      set childpos := 2 * pos + 1 with hcp
      -- the chosen child and its minimality among in-range children
      set c := if childpos + 1 < n ∧
          ¬ taskLt (heap.getD childpos newitem)
            (heap.getD (childpos + 1) newitem) = true
        then childpos + 1 else childpos with hcdef
      have hcrange : c < n ∧ (childpos ≤ c) := by
        rw [hcdef]
        split
        · next hsel => exact ⟨hsel.1, by omega⟩
        · exact ⟨hc, le_refl _⟩
      have hcparent : (c - 1) / 2 = pos := by
        have h2 : c = childpos ∨ c = childpos + 1 := by
          rw [hcdef]
          split
          · exact Or.inr rfl
          · exact Or.inl rfl
        rcases h2 with h2 | h2 <;> rw [h2] <;> omega
      have hcmin : ∀ j, j < n → (j - 1) / 2 = pos → 0 < j →
          prioAt heap c ≤ prioAt heap j := by
        intro j hj hpj hj0
        have hj12 : j = childpos ∨ j = childpos + 1 := by omega
        have hgd : ∀ i, i < n →
            heap.getD i newitem = heap.getD i dummyTask :=
          fun i hi => getD_irrel hi _ _
        rw [hcdef]
        split
        · next hsel =>
          have hnlt := hsel.2
          rw [hgd childpos hc, hgd (childpos + 1) hsel.1] at hnlt
          simp only [taskLt, decide_eq_true_eq] at hnlt
          rcases hj12 with h12 | h12
          · rw [h12]
            unfold prioAt
            omega
          · rw [h12]
        · next hsel =>
          rcases hj12 with h12 | h12
          · rw [h12]
          · rw [h12]
            have hr : childpos + 1 < n := by omega
            have hlt : taskLt (heap.getD childpos newitem)
                (heap.getD (childpos + 1) newitem) = true := by
              by_contra hK
              exact hsel ⟨hr, hK⟩
            rw [hgd childpos hc, hgd (childpos + 1) hr] at hlt
            simp only [taskLt, decide_eq_true_eq] at hlt
            unfold prioAt
            omega
      -- the new array with the hole moved to c
      have hc0 : 0 < c := by omega
      have hcgt : pos < c := by omega
      have hlen2 : c < (heap.set pos (heap.getD c newitem)).length := by
        rw [List.length_set]
        exact hcrange.1
      have hval : ∀ i, i ≠ pos →
          prioAt (heap.set pos (heap.getD c newitem)) i = prioAt heap i := by
        intro i hi
        unfold prioAt
        rw [getD_set_ne (fun he => hi he.symm)]
      have hvalp : prioAt (heap.set pos (heap.getD c newitem)) pos
          = prioAt heap c := by
        unfold prioAt
        rw [getD_set_self hlen]
        rw [getD_irrel hcrange.1]
      have hdown2 : downExc (heap.set pos (heap.getD c newitem)) c := by
        constructor
        · intro j hj hj0 hjc hpjc
          rw [List.length_set] at hj
          by_cases hjpos : j = pos
          · have hp0 : 0 < pos := by omega
            have hpjne : (pos - 1) / 2 ≠ pos := by omega
            rw [hjpos, hval _ hpjne, hvalp]
            exact H.2 c hcrange.1 hc0 hcparent hp0
          · by_cases hpj : (j - 1) / 2 = pos
            · rw [hpj, hvalp, hval j hjpos]
              exact hcmin j hj hpj hj0
            · rw [hval j hjpos, hval _ hpj]
              exact H.1 j hj hj0 hjpos hpj
        · intro j hj hj0 hpj _
          rw [List.length_set] at hj
          rw [hcparent, hvalp]
          have hjne1 : j ≠ pos := by omega
          have hjne2 : (j - 1) / 2 ≠ pos := by omega
          rw [hval j hjne1]
          have hH := H.1 j hj hj0 hjne1 hjne2
          rw [hpj] at hH
          exact hH
      have hind := ih (heap.set pos (heap.getD c newitem)) c hlen2
        (by rw [List.length_set]; omega) hdown2
      refine ⟨hind.1, ?_⟩
      rw [hind.2, List.length_set]
    · rw [if_neg hc]
      -- pos is a leaf: write the item there and bubble it up
      have hup : upExc ((heap.set pos newitem).set pos newitem) pos := by
        rw [List.set_set]
        constructor
        · intro j hj hj0 hjpos
          rw [List.length_set] at hj
          have hpj : (j - 1) / 2 ≠ pos := by omega
          unfold prioAt
          rw [getD_set_ne (fun he => hpj he.symm),
            getD_set_ne (fun he => hjpos he.symm)]
          exact H.1 j hj hj0 hjpos hpj
        · intro j hj hj0 hpj _
          rw [List.length_set] at hj
          omega
      have hspec := siftdownGo_spec newitem pos (heap.set pos newitem) pos
        (by rw [List.length_set]; exact hlen) (le_refl _) hup
      unfold siftdownAux
      rw [List.length_set] at hspec
      exact ⟨hspec.1, hspec.2⟩

/-- `heapq.heappush` preserves the heap invariant, grows the array by
one, and adds no element but the pushed task. -/
theorem heappush_spec (h : List ProcessingTask) (t : ProcessingTask)
    (H : heapInv h) :
    heapInv (heappush h t) ∧ (heappush h t).length = h.length + 1 ∧
    (∀ x ∈ heappush h t, x = t ∨ x ∈ h) := by
  have hlenapp : (h ++ [t]).length = h.length + 1 := by simp
  have hpush : heappush h t
      = siftdownGo t 0 h.length (h ++ [t]) h.length := by
    unfold heappush siftdownAux
    dsimp only
    rw [hlenapp]
    norm_num
  have hset : ∀ (j : Nat), j < h.length →
      prioAt ((h ++ [t]).set h.length t) j = prioAt h j := by
    intro j hj
    unfold prioAt
    rw [getD_set_ne (by omega)]
    rw [List.getD_eq_getElem?_getD, List.getD_eq_getElem?_getD,
      List.getElem?_append, if_pos hj]
  have hup : upExc ((h ++ [t]).set h.length t) h.length := by
    constructor
    · intro j hj hj0 hjne
      rw [List.length_set, hlenapp] at hj
      have hjlt : j < h.length := by omega
      have hpjlt : (j - 1) / 2 < h.length := by omega
      rw [hset j hjlt, hset _ hpjlt]
      exact H j hjlt hj0
    · intro j hj hj0 hpj hp0
      rw [List.length_set, hlenapp] at hj
      omega
  have := siftdownGo_spec t h.length (h ++ [t]) h.length
    (by omega) (le_refl _) hup
  rw [hpush]
  refine ⟨this.1, by rw [this.2, hlenapp], ?_⟩
  intro x hx
  rcases siftdownGo_mem t 0 _ _ _ x hx with hh | hh
  · exact Or.inl hh
  · rcases List.mem_append.mp hh with hh2 | hh2
    · exact Or.inr hh2
    · exact Or.inl (List.mem_singleton.mp hh2)

/-- `heapq.heappop` on a valid heap: pops the root (a minimum-priority
element), keeps only old elements, and preserves the invariant. -/
theorem heappop_spec (h : List ProcessingTask) (H : heapInv h)
    (r : ProcessingTask) (h2 : List ProcessingTask)
    (hpop : heappop h = some (r, h2)) :
    heapInv h2 ∧ h2.length = h.length - 1 ∧ (∀ x ∈ h2, x ∈ h) ∧
    r ∈ h ∧ (∀ x ∈ h, r.priority ≤ x.priority) := by
  unfold heappop at hpop
  cases hlast : h.getLast? with
  | none => rw [hlast] at hpop; exact absurd hpop (by simp)
  | some lastelt =>
    rw [hlast] at hpop
    dsimp only at hpop
    by_cases hrest : h.dropLast.isEmpty = true
    · rw [if_pos hrest] at hpop
      rw [List.isEmpty_iff] at hrest
      have hlen1 : h.length = 1 := by
        have h1 := congrArg List.length hrest
        rw [List.length_dropLast] at h1
        have hne : h ≠ [] := by
          intro hcontra
          rw [hcontra] at hlast
          simp at hlast
        have : 0 < h.length := List.length_pos.mpr hne
        simp at h1
        omega
      obtain ⟨a, ha⟩ := List.length_eq_one.mp hlen1
      have haL : a = lastelt := by
        rw [ha] at hlast
        simpa using hlast
      cases hpop
      refine ⟨by intro j hj _; simp at hj, by simp [hlen1], by simp,
        List.mem_of_getLast?_eq_some hlast, ?_⟩
      intro x hx
      rw [ha] at hx
      rw [List.mem_singleton] at hx
      subst hx
      rw [haL]
    · rw [if_neg hrest] at hpop
      have hrestne : h.dropLast ≠ [] := by
        intro hcontra
        rw [hcontra] at hrest
        simp at hrest
      have hlen2 : 2 ≤ h.length := by
        have := List.length_pos.mpr hrestne
        rw [List.length_dropLast] at this
        omega
      cases hpop
      -- the returned element is the root
      have hroot : (h.dropLast.headD lastelt).priority = prioAt h 0 := by
        rw [List.headD_eq_head?_getD]
        have h0 : h.dropLast.head? = h[0]? := by
          rw [List.head?_eq_getElem?]
          rw [List.getElem?_dropLast]
          rw [if_pos (by omega)]
        rw [h0]
        unfold prioAt
        rw [List.getD_eq_getElem?_getD, List.getElem?_eq_getElem
          (by omega : 0 < h.length)]
        rfl
      -- the shuffled array satisfies the trickle-down precondition
      have hvlen : (h.dropLast.set 0 lastelt).length = h.length - 1 := by
        rw [List.length_set, List.length_dropLast]
      have hvval : ∀ j, 0 < j → j < h.length - 1 →
          prioAt (h.dropLast.set 0 lastelt) j = prioAt h j := by
        intro j hj0 hj
        unfold prioAt
        rw [getD_set_ne (by omega)]
        rw [List.getD_eq_getElem?_getD, List.getD_eq_getElem?_getD,
          List.getElem?_dropLast, if_pos hj]
      have hdown : downExc (h.dropLast.set 0 lastelt) 0 := by
        constructor
        · intro j hj hj0 hjne hpjne
          rw [hvlen] at hj
          rw [hvval j hj0 hj, hvval _ (by omega) (by omega)]
          exact H j (by omega) hj0
        · intro j hj hj0 hpj hcontra
          omega
      have hspec := siftupGo_spec lastelt (h.dropLast.set 0 lastelt).length
        (h.dropLast.set 0 lastelt) 0 (by rw [hvlen]; omega) (by omega)
        hdown
      unfold siftupAux
      refine ⟨hspec.1, by rw [hspec.2, hvlen], ?_, ?_, ?_⟩
      · intro x hx
        rcases siftupGo_mem lastelt 0 _ _ _ x hx with hh | hh
        · exact hh ▸ List.mem_of_getLast?_eq_some hlast
        · rcases mem_of_mem_set hh with hh2 | hh2
          · exact hh2 ▸ List.mem_of_getLast?_eq_some hlast
          · exact (List.dropLast_sublist h).mem hh2
      · obtain ⟨y, ys, hys⟩ := List.exists_cons_of_ne_nil hrestne
        rw [hys]
        simp only [List.headD_cons]
        have hy : y ∈ h.dropLast := by
          rw [hys]
          exact List.mem_cons_self _ _
        exact (List.dropLast_sublist h).mem hy
      · intro x hx
        rw [hroot]
        exact heapInv_root_min H x hx

/-- Draining a valid heap yields tasks in non-decreasing priority order,
all drawn from the heap. -/
theorem drainTasks_sorted (n : Nat) :
    ∀ h : List ProcessingTask, heapInv h →
      (drainTasks h n).Pairwise (fun a b => a.priority ≤ b.priority) ∧
      (∀ x ∈ drainTasks h n, x ∈ h) := by
  induction n with
  | zero =>
    intro h _
    exact ⟨by rw [drainTasks]; exact List.Pairwise.nil,
      by rw [drainTasks]; simp⟩
  | succ n ih =>
    intro h H
    rw [drainTasks]
    cases hpop : heappop h with
    | none => exact ⟨List.Pairwise.nil, by simp⟩
    | some pr =>
      obtain ⟨t, h2⟩ := pr
      obtain ⟨Hinv2, _, Hsub, Hmem, Hmin⟩ := heappop_spec h H t h2 hpop
      obtain ⟨ihp, ihm⟩ := ih h2 Hinv2
      refine ⟨List.Pairwise.cons ?_ ihp, ?_⟩
      · intro x hx
        exact Hmin x (Hsub x (ihm x hx))
      · intro x hx
        rcases List.mem_cons.mp hx with rfl | hx
        · exact Hmem
        · exact Hsub x (ihm x hx)

/-! ## Claim theorems -/

/-- C10: `get_partition_keys` is a deterministic pure function of the
memory record: with the (deterministic) parsing collaborators fixed, two
calls on the same unmodified record — even at different current times —
yield identical key lists; the current time and all other external state
are irrelevant. -/
theorem partition_keys_pure (parseIso : String → Option PyDateTime)
    (parseJsonObj : String → Option (List (String × String)))
    (now1 now2 : PyDateTime) (memory_data : MemoryData) :
    get_partition_keys parseIso parseJsonObj now1 memory_data =
      get_partition_keys parseIso parseJsonObj now2 memory_data := by
  rcases memory_data with ⟨ca, src, mj⟩
  cases ca with
  | none => rfl
  | some v =>
    cases v with
    | dt d => rfl
    | str s => rfl

/-- C6 counterexample: with the default ceilings (1024 MB, 80% CPU) and a
reported CPU utilization of 75%, utilization exceeds 90% of the CPU
ceiling (75 > 72), yet `should_throttle` returns `false`: the code
compares CPU against the full ceiling, not 90% of it. -/
theorem should_throttle_not_ninety_percent :
    should_throttle 1024 80
        { memory_usage_mb := 0, cpu_usage_percent := 75, active_tasks := 0 }
      = false ∧
    should_throttle_claimed 1024 80
        { memory_usage_mb := 0, cpu_usage_percent := 75, active_tasks := 0 }
      = true := by
  constructor <;> · simp [should_throttle, should_throttle_claimed]; norm_num

/-- C6 (amended): `should_throttle` returns `true` exactly when memory
utilization exceeds 90% of the configured memory ceiling or CPU
utilization exceeds the full configured CPU ceiling. -/
theorem should_throttle_characterization
    (max_memory_mb max_cpu_percent : ℚ) (current : ResourceStats) :
    should_throttle max_memory_mb max_cpu_percent current = true ↔
      (current.memory_usage_mb > max_memory_mb * (9/10) ∨
       current.cpu_usage_percent > max_cpu_percent) := by
  simp [should_throttle]

/-- C9: every task of type `embedding` or `batch_embedding` fails: its
handler's `from .embeddings import embed_texts_batch` raises
`ImportError` (the module defines `embed_batch`, not `embed_texts_batch`),
so for every payload the worker counts the task in `tasks_failed`, leaves
the success counters untouched, and never invokes the callback. -/
theorem embedding_tasks_always_fail
    (consolidationH : TaskData → Except PyErr TaskResult)
    (elapsed : ℚ) (queueSizeAfter : Nat) (stats : PipelineStats)
    (task : ProcessingTask)
    (h : task.task_type = "embedding" ∨ task.task_type = "batch_embedding") :
    processTaskHandler consolidationH task.task_type task.data
        = .error (.importError "embed_texts_batch") ∧
    workerStep consolidationH elapsed queueSizeAfter stats task =
      ({ stats with tasks_failed := stats.tasks_failed + 1,
                    queue_size := queueSizeAfter }, false) := by
  have hh : processTaskHandler consolidationH task.task_type task.data
      = .error (.importError "embed_texts_batch") := by
    rcases h with h | h <;>
      simp [processTaskHandler, h, processEmbeddingTask,
        processBatchEmbeddingTask, importFromEmbeddings, embeddingsModuleNames]
  refine ⟨hh, ?_⟩
  simp [workerStep, hh]

/-- C9 witness: an `embedding` task with an empty payload and a callback,
dequeued by a worker with fresh stats, is counted as failed and its
callback is never invoked. -/
theorem embedding_tasks_always_fail_witness :
    processTaskHandler (fun _ => .ok (.consolidated 0)) "embedding"
        (.texts ["hello"])
      = .error (.importError "embed_texts_batch") ∧
    workerStep (fun _ => .ok (.consolidated 0)) 1 0 {}
        { priority := 1, task_id := "embed_1", task_type := "embedding",
          data := .texts ["hello"], hasCallback := true, created_at := 0 } =
      ({ tasks_processed := 0, tasks_failed := 1,
         avg_processing_time := 0, queue_size := 0 }, false) :=
  embedding_tasks_always_fail (fun _ => .ok (.consolidated 0)) 1 0 {}
    { priority := 1, task_id := "embed_1", task_type := "embedding",
      data := .texts ["hello"], hasCallback := true, created_at := 0 }
    (Or.inl rfl)

/-- C5: for every query, store state and parameter choice, the list
`search_memories` returns is non-increasing in similarity score, every
returned pair's similarity is at least `min_similarity`, and the length
is at most `limit`. -/
theorem search_ranking_invariant (embedFn : String → List ℚ)
    (fsqrt : ℚ → ℚ) (now : Int) (query : String) (store : List Memory)
    (limit : Nat) (privacy_filter source_filter : Option String)
    (min_similarity : ℚ) (time_window_days : Option Int) :
    (search_memories embedFn fsqrt now query store limit privacy_filter
        source_filter min_similarity time_window_days).Pairwise
      (fun a b => b.2 ≤ a.2) ∧
    (∀ p ∈ search_memories embedFn fsqrt now query store limit
        privacy_filter source_filter min_similarity time_window_days,
      min_similarity ≤ p.2) ∧
    (search_memories embedFn fsqrt now query store limit privacy_filter
        source_filter min_similarity time_window_days).length ≤ limit := by
  unfold search_memories
  dsimp only
  refine ⟨?_, ?_, ?_⟩
  · have hs := @List.sorted_mergeSort _ simDescBool
      (fun a b c hab hbc => by
        simp only [simDescBool, decide_eq_true_eq] at hab hbc ⊢
        exact le_trans hbc hab)
      (fun a b => by
        simp only [simDescBool]
        rcases le_total a.2 b.2 with h | h <;> simp [h])
      ((searchCandidates now store privacy_filter source_filter
          time_window_days).filterMap
        (scoreRecord fsqrt (embed_text embedFn (some query)) min_similarity))
    have := List.Pairwise.sublist (List.take_sublist limit _) hs
    exact this.imp (fun h => by
      simpa [simDescBool, decide_eq_true_eq] using h)
  · intro p hp
    have hp' : p ∈ ((searchCandidates now store privacy_filter source_filter
        time_window_days).filterMap
          (scoreRecord fsqrt (embed_text embedFn (some query))
            min_similarity)).mergeSort simDescBool := List.mem_of_mem_take hp
    rw [List.mem_mergeSort, List.mem_filterMap] at hp'
    obtain ⟨m, _, hscore⟩ := hp'
    unfold scoreRecord at hscore
    rcases hemb : m.embedding_json with _ | ej
    · rw [hemb] at hscore; exact absurd hscore (by simp)
    · rcases ej with v | _
      · rw [hemb] at hscore
        dsimp only at hscore
        split at hscore
        · rename_i hge
          cases hscore
          simpa using hge
        · exact absurd hscore (by simp)
      · rw [hemb] at hscore; exact absurd hscore (by simp)
  · exact List.length_take_le _ _

/-- C4 counterexample: a memory whose `ttl_seconds` is set to `0`, created
100 seconds before the search (so `now - created_at` exceeds
`ttl_seconds`), is nevertheless returned by `search_memories`: the Python
guard `if mem.ttl_seconds:` treats a zero TTL as falsy and skips the
expiry check. -/
theorem ttl_zero_memory_returned :
    search_memories (fun _ => [1]) (fun q => q) 100 "q"
        [{ created_at := 0, source := some "meds",
           embedding_json := some (.vec [1]), ttl_seconds := some 0 }]
        10 none none (3/10) none
      = [({ created_at := 0, source := some "meds",
            embedding_json := some (.vec [1]), ttl_seconds := some 0 }, 1)] ∧
    (100 : Int) - 0 > 0 := by
  constructor
  · have hq : pyFalsyStr "q" = false := by decide
    simp only [search_memories, searchCandidates, scoreRecord, embed_text,
      pyTruthyStr, ttlExpired, cosine_similarity, simDescBool, hq]
    norm_num [scoreRecord, cosine_similarity, simDescBool, List.filter,
      List.filterMap, List.mergeSort, List.take]
  · norm_num

/-- C4 (amended): a memory whose `ttl_seconds` is set to a nonzero value
and whose age `now - created_at` exceeds it never appears in
`search_memories` results, for every query, filter combination and
similarity; a memory with `ttl_seconds = 0` is, however, treated by the
code as having no TTL at all (Python truthiness), see the
counterexample. -/
theorem expired_memory_never_returned (embedFn : String → List ℚ)
    (fsqrt : ℚ → ℚ) (now : Int) (query : String) (store : List Memory)
    (limit : Nat) (privacy_filter source_filter : Option String)
    (min_similarity : ℚ) (time_window_days : Option Int)
    (m : Memory) (t : Int) (sc : ℚ)
    (httl : m.ttl_seconds = some t) (ht : t ≠ 0)
    (hage : now - m.created_at > t) :
    (m, sc) ∉ search_memories embedFn fsqrt now query store limit
      privacy_filter source_filter min_similarity time_window_days := by
  intro hp
  have hp' := List.mem_of_mem_take hp
  rw [List.mem_mergeSort, List.mem_filterMap] at hp'
  obtain ⟨x, hx, hscore⟩ := hp'
  have hxm : x = m := by
    unfold scoreRecord at hscore
    rcases hemb : x.embedding_json with _ | ej
    · rw [hemb] at hscore; exact absurd hscore (by simp)
    · rcases ej with v | _
      · rw [hemb] at hscore
        dsimp only at hscore
        split at hscore
        · cases hscore; rfl
        · exact absurd hscore (by simp)
      · rw [hemb] at hscore; exact absurd hscore (by simp)
  subst hxm
  have hkeep := (List.mem_filter.mp hx).2
  have : ttlExpired now x = true := by
    unfold ttlExpired
    rw [httl]
    simp [ht, hage]
  simp [this] at hkeep

/-- C4 witness: a memory with `ttl_seconds = 60` created 100 seconds
before the search is not among the results. -/
theorem expired_memory_never_returned_witness :
    (({ created_at := 0, embedding_json := some (.vec [1]),
        ttl_seconds := some 60 } : Memory), (1 : ℚ)) ∉
      search_memories (fun _ => [1]) (fun q => q) 100 "q"
        [{ created_at := 0, embedding_json := some (.vec [1]),
           ttl_seconds := some 60 }] 10 none none (3/10) none :=
  expired_memory_never_returned (fun _ => [1]) (fun q => q) 100 "q"
    [{ created_at := 0, embedding_json := some (.vec [1]),
       ttl_seconds := some 60 }] 10 none none (3/10) none
    { created_at := 0, embedding_json := some (.vec [1]),
      ttl_seconds := some 60 } 60 1 rfl (by decide) (by decide)

/-- C1 (amended): over a store whose old (pre-cutoff) memories all fit in
one batch and carry text, with at least one old memory of source
`s ≠ "conversation"` and no pre-existing rows colliding with the summary
tag, a non-dry-run `consolidate_old_memories` completes without error,
deletes every old memory of source `s`, and adds exactly one new summary
row — tagged `source = "{s}_summary"` with `privacy_label = "private"`.
A subsequent `search_memories` with `source_filter = s` (any query,
embedding, similarity floor, limit, time) returns none of the deleted
originals — and, contrary to the claim as written, does not return the
summary either, because the summary's source is `"{s}_summary"`, which
the exact-match source filter excludes. -/
theorem consolidation_conservation (embedFn : String → List ℚ)
    (dateFmt isoFmt : Int → String) (now : Int) (store : List Memory)
    (days_old : Int) (batch_size : Nat) (s : String)
    (hbatch : (store.filter (oldSelB now days_old)).length ≤ batch_size)
    (hG : ∃ g ∈ store, g.source = some s ∧
      g.created_at < now - days_old * 86400)
    (hconv : s ≠ "conversation")
    (hsne : s ≠ "")
    (htb : ∀ m ∈ store, m.text_blob ≠ none)
    (hclean1 : ∀ m ∈ store, m.source ≠ some (s ++ "_summary"))
    (hclean2 : ∀ m ∈ store, ∀ t, m.source = some t →
      t ++ "_summary" ≠ s) :
    (∃ stats, (consolidate_old_memories embedFn dateFmt isoFmt now store
        days_old batch_size false).2 = .ok stats) ∧
    countSummary s (consolidate_old_memories embedFn dateFmt isoFmt now
        store days_old batch_size false).1 = 1 ∧
    (∀ x ∈ (consolidate_old_memories embedFn dateFmt isoFmt now store
        days_old batch_size false).1,
      x.source = some (s ++ "_summary") →
      x.privacy_label = some "private") ∧
    (∀ g ∈ store, g.source = some s →
      g.created_at < now - days_old * 86400 →
      g ∉ (consolidate_old_memories embedFn dateFmt isoFmt now store
        days_old batch_size false).1) ∧
    (∀ (embedFn2 : String → List ℚ) (fsqrt : ℚ → ℚ) (now2 : Int)
        (query : String) (limit : Nat) (pf : Option String) (ms : ℚ)
        (twd : Option Int) (p : Memory × ℚ),
      p ∈ search_memories embedFn2 fsqrt now2 query
          (consolidate_old_memories embedFn dateFmt isoFmt now store
            days_old batch_size false).1 limit pf (some s) ms twd →
      p.1.source ≠ some (s ++ "_summary") ∧
      (∀ g ∈ store, g.source = some s →
        g.created_at < now - days_old * 86400 → p.1 ≠ g)) := by
  obtain ⟨g0, hg0s, hg0src, hg0old⟩ := hG
  have hg0sel : g0 ∈ store.filter (oldSelB now days_old) := by
    rw [List.mem_filter]
    refine ⟨hg0s, ?_⟩
    unfold oldSelB
    rw [hg0src]
    simp [hg0old, hconv]
  have hselne : store.filter (oldSelB now days_old) ≠ [] :=
    List.ne_nil_of_mem hg0sel
  -- reduce the entry point to the per-group loop over the full selection
  have hsel : (store.filter (oldSelB now days_old)).take batch_size
      = store.filter (oldSelB now days_old) :=
    List.take_of_length_le hbatch
  have hentry : consolidate_old_memories embedFn dateFmt isoFmt now store
      days_old batch_size false
      = consolidateGroups embedFn dateFmt isoFmt now false
          (groupBySource (store.filter (oldSelB now days_old))) store {} := by
    unfold consolidate_old_memories
    dsimp only
    rw [hsel, if_neg hselne]
  obtain ⟨gb1, gb2, gb3, gb4, gb5⟩ :=
    groupBySource_inv (store.filter (oldSelB now days_old))
  have hselstore : ∀ m ∈ store.filter (oldSelB now days_old), m ∈ store :=
    fun m hm => (List.mem_filter.mp hm).1
  have hselsome : ∀ m ∈ store.filter (oldSelB now days_old),
      m.source ≠ none := by
    intro m hm hnone
    have := (List.mem_filter.mp hm).2
    unfold oldSelB at this
    rw [hnone] at this
    simp at this
  -- the hypotheses of the loop lemma
  have Hne : ∀ grp ∈ groupBySource (store.filter (oldSelB now days_old)),
      grp.2 ≠ [] := gb1
  have Hmember : ∀ grp ∈ groupBySource (store.filter (oldSelB now days_old)),
      ∃ m ∈ store.filter (oldSelB now days_old), m.source = grp.1 := by
    intro grp hgrp
    obtain ⟨m, hm⟩ := List.exists_mem_of_ne_nil _ (gb1 grp hgrp)
    exact ⟨m, (gb2 grp hgrp m hm).2, (gb2 grp hgrp m hm).1⟩
  obtain ⟨S1, S2, S3⟩ := consolidateGroups_spec embedFn dateFmt isoFmt now s
    (groupBySource (store.filter (oldSelB now days_old))) store {}
    gb1
    (fun grp hgrp m hm => htb m (hselstore m (gb2 grp hgrp m hm).2))
    (fun grp hgrp m hm => (gb2 grp hgrp m hm).1)
    (fun grp hgrp => by
      obtain ⟨m, hmsel, hmsrc⟩ := Hmember grp hgrp
      exact hmsrc ▸ hselsome m hmsel)
    (fun grp hgrp => by
      obtain ⟨m, hmsel, hmsrc⟩ := Hmember grp hgrp
      exact hmsrc ▸ hclean1 m (hselstore m hmsel))
  rw [hentry]
  have hdeleted : ∀ g ∈ store, g.source = some s →
      g.created_at < now - days_old * 86400 →
      g ∉ (consolidateGroups embedFn dateFmt isoFmt now false
        (groupBySource (store.filter (oldSelB now days_old))) store {}).1 := by
    intro g hgs hgsrc hgold hgin
    have hgsel : g ∈ store.filter (oldSelB now days_old) := by
      rw [List.mem_filter]
      refine ⟨hgs, ?_⟩
      unfold oldSelB
      rw [hgsrc]
      simp [hgold, hconv]
    obtain ⟨grp, hgrp, hgkey⟩ := gb5 g hgsel
    have hginGrp : g ∈ grp.2 := gb4 g hgsel grp hgrp hgkey
    rcases S2 g hgin with ⟨_, hnone⟩ | ⟨t2, ⟨grp2, hgrp2, hk2⟩, hsrc2, _⟩
    · exact hnone grp hgrp hginGrp
    · obtain ⟨m2, hm2sel, hm2src⟩ := Hmember grp2 hgrp2
      have : t2 ++ "_summary" ≠ s :=
        hclean2 m2 (hselstore m2 hm2sel) t2 (hm2src.trans hk2)
      apply this
      have := hgsrc.symm.trans hsrc2
      exact (Option.some.inj this).symm
  refine ⟨S1, ?_, ?_, hdeleted, ?_⟩
  · rw [S3]
    have hzero : countSummary s store = 0 := by
      unfold countSummary
      rw [List.length_eq_zero]
      rw [List.filter_eq_nil_iff]
      intro m hm
      simp only [decide_eq_true_eq]
      exact hclean1 m hm
    have hone : ((groupBySource (store.filter (oldSelB now days_old))).filter
        (fun grp => decide (grp.1 = some s))).length = 1 := by
      apply filter_key_unique gb3
      obtain ⟨grp, hgrp, hgkey⟩ := gb5 g0 hg0sel
      exact ⟨grp, hgrp, hgkey.trans hg0src⟩
    rw [hzero, hone]
  · intro x hx hxsrc
    rcases S2 x hx with ⟨hxs, _⟩ | ⟨t2, _, _, hp2⟩
    · exact absurd hxsrc (hclean1 x hxs)
    · exact hp2
  · intro embedFn2 fsqrt now2 query limit pf ms twd p hp
    have hmem := search_result_mem hp
    have htr : pyTruthyStr (some s) = true := by
      unfold pyTruthyStr pyFalsyStr
      simpa using hsne
    have hpsrc : p.1.source = some s := by
      have := hmem.2 htr
      simpa using this
    constructor
    · rw [hpsrc]
      intro hcontra
      exact ne_append_summary s (Option.some.inj hcontra)
    · intro g hgs hgsrc hgold hpg
      exact hdeleted g hgs hgsrc hgold (hpg ▸ hmem.1)

/-- C1 witness: on the demonstration store the consolidation completes,
exactly one private `"meds_summary"` row exists afterwards, the old
original is gone, and any search filtered to source `"meds"` returns
neither a deleted original nor the summary. -/
theorem consolidation_conservation_witness :
    (∃ stats, demoConsolidate.2 = .ok stats) ∧
    countSummary "meds" demoConsolidate.1 = 1 ∧
    (∀ x ∈ demoConsolidate.1,
      x.source = some ("meds" ++ "_summary") →
      x.privacy_label = some "private") ∧
    (∀ g ∈ demoStore, g.source = some "meds" →
      g.created_at < 2592001 - 30 * 86400 → g ∉ demoConsolidate.1) ∧
    (∀ (embedFn2 : String → List ℚ) (fsqrt : ℚ → ℚ) (now2 : Int)
        (query : String) (limit : Nat) (pf : Option String) (ms : ℚ)
        (twd : Option Int) (p : Memory × ℚ),
      p ∈ search_memories embedFn2 fsqrt now2 query demoConsolidate.1
          limit pf (some "meds") ms twd →
      p.1.source ≠ some ("meds" ++ "_summary") ∧
      (∀ g ∈ demoStore, g.source = some "meds" →
        g.created_at < 2592001 - 30 * 86400 → p.1 ≠ g)) :=
  consolidation_conservation (fun _ => [1]) (fun _ => "d") (fun _ => "i")
    2592001 demoStore 30 100 "meds"
    (by decide)
    ⟨demoOldMed, by decide, rfl, by decide⟩
    (by decide) (by decide)
    (by decide) (by decide) (by decide)

/-- C1 counterexample: consolidating a store holding a single old
`"meds"` memory replaces it by one `"meds_summary"` row — and a
subsequent `search_memories` with `source_filter = "meds"` then returns
nothing at all: it does not return the summary (whose source is
`"meds_summary"`, excluded by the exact-match filter), contradicting the
claim that the summary is returned. -/
theorem summary_not_returned_under_source_filter :
    ((consolidate_old_memories (fun _ => [1]) (fun _ => "d")
        (fun _ => "i") 2592001 [demoOldMed] 30 100 false).1).map
        (fun m => m.source)
      = [some "meds_summary"] ∧
    search_memories (fun _ => [1]) (fun q => q) 2592001 "aspirin dosage"
        (consolidate_old_memories (fun _ => [1]) (fun _ => "d")
          (fun _ => "i") 2592001 [demoOldMed] 30 100 false).1
        5 none (some "meds") 0 none
      = [] := by
  constructor
  · rfl
  · apply search_empty_of_no_source_match
    · decide
    · decide

/-- C2 counterexample: four tasks of equal priority submitted in the
order a, b, c, d are dequeued as a, c, b, d — the task submitted third is
served before the task submitted second, so dequeue order within a
priority band is not FIFO (`ProcessingTask` compares on `priority` alone
and `heapq` is not stable). -/
theorem fifo_within_priority_band_violated :
    drainIds (pushAll [
      { priority := 1, task_id := "a", task_type := "indexing",
        data := .memories 0 },
      { priority := 1, task_id := "b", task_type := "indexing",
        data := .memories 0 },
      { priority := 1, task_id := "c", task_type := "indexing",
        data := .memories 0 },
      { priority := 1, task_id := "d", task_type := "indexing",
        data := .memories 0 }]) 4
      = ["a", "c", "b", "d"] ∧
    (["a", "c", "b", "d"] : List String) ≠ ["a", "b", "c", "d"] := by
  constructor
  · decide
  · decide

/-- C2 (amended): the pipeline's queue is a binary heap ordered by
priority value alone.  From any state satisfying the heap invariant
(which the empty queue does, and which `heappush`/`heappop` preserve),
every dequeue returns a task of minimal priority value among all tasks
then queued — so a lower-priority-value task submitted later is served
before a higher-priority-value task already waiting, and draining the
queue yields non-decreasing priority values.  Among tasks with equal
priority value, however, the dequeue order is the heap's, not FIFO (see
the counterexample). -/
theorem priority_queue_ordering (h : List ProcessingTask)
    (hinv : heapInv h) :
    heapInv ([] : List ProcessingTask) ∧
    (∀ t, heapInv (heappush h t) ∧
      (∀ x ∈ heappush h t, x = t ∨ x ∈ h)) ∧
    (∀ r h2, heappop h = some (r, h2) →
      heapInv h2 ∧ (∀ x ∈ h2, x ∈ h) ∧ r ∈ h ∧
      (∀ x ∈ h, r.priority ≤ x.priority)) ∧
    (∀ n, (drainTasks h n).Pairwise
      (fun a b => a.priority ≤ b.priority)) := by
  refine ⟨?_, ?_, ?_, ?_⟩
  · intro j hj _
    simp at hj
  · intro t
    have := heappush_spec h t hinv
    exact ⟨this.1, this.2.2⟩
  · intro r h2 hpop
    have := heappop_spec h hinv r h2 hpop
    exact ⟨this.1, this.2.2.1, this.2.2.2.1, this.2.2.2.2⟩
  · intro n
    exact (drainTasks_sorted n h hinv).1

/-- C2 witness: the spec's own scenario — priorities 3, 1, 2 submitted in
that order — on the concrete heap built by those three pushes: the heap
invariant holds, pushes and pops preserve it, each pop returns a
minimal-priority task, and draining is sorted by priority. -/
theorem priority_queue_ordering_witness :
    heapInv ([] : List ProcessingTask) ∧
    (∀ t, heapInv (heappush (pushAll [
        { priority := 3, task_id := "x", task_type := "indexing",
          data := .memories 0 },
        { priority := 1, task_id := "y", task_type := "indexing",
          data := .memories 0 },
        { priority := 2, task_id := "z", task_type := "indexing",
          data := .memories 0 }]) t) ∧
      (∀ x ∈ heappush (pushAll [
        { priority := 3, task_id := "x", task_type := "indexing",
          data := .memories 0 },
        { priority := 1, task_id := "y", task_type := "indexing",
          data := .memories 0 },
        { priority := 2, task_id := "z", task_type := "indexing",
          data := .memories 0 }]) t, x = t ∨ x ∈ pushAll [
        { priority := 3, task_id := "x", task_type := "indexing",
          data := .memories 0 },
        { priority := 1, task_id := "y", task_type := "indexing",
          data := .memories 0 },
        { priority := 2, task_id := "z", task_type := "indexing",
          data := .memories 0 }])) ∧
    (∀ r h2, heappop (pushAll [
        { priority := 3, task_id := "x", task_type := "indexing",
          data := .memories 0 },
        { priority := 1, task_id := "y", task_type := "indexing",
          data := .memories 0 },
        { priority := 2, task_id := "z", task_type := "indexing",
          data := .memories 0 }]) = some (r, h2) →
      heapInv h2 ∧ (∀ x ∈ h2, x ∈ pushAll [
        { priority := 3, task_id := "x", task_type := "indexing",
          data := .memories 0 },
        { priority := 1, task_id := "y", task_type := "indexing",
          data := .memories 0 },
        { priority := 2, task_id := "z", task_type := "indexing",
          data := .memories 0 }]) ∧ r ∈ pushAll [
        { priority := 3, task_id := "x", task_type := "indexing",
          data := .memories 0 },
        { priority := 1, task_id := "y", task_type := "indexing",
          data := .memories 0 },
        { priority := 2, task_id := "z", task_type := "indexing",
          data := .memories 0 }] ∧
      (∀ x ∈ pushAll [
        { priority := 3, task_id := "x", task_type := "indexing",
          data := .memories 0 },
        { priority := 1, task_id := "y", task_type := "indexing",
          data := .memories 0 },
        { priority := 2, task_id := "z", task_type := "indexing",
          data := .memories 0 }], r.priority ≤ x.priority)) ∧
    (∀ n, (drainTasks (pushAll [
        { priority := 3, task_id := "x", task_type := "indexing",
          data := .memories 0 },
        { priority := 1, task_id := "y", task_type := "indexing",
          data := .memories 0 },
        { priority := 2, task_id := "z", task_type := "indexing",
          data := .memories 0 }]) n).Pairwise
      (fun a b => a.priority ≤ b.priority)) :=
  priority_queue_ordering (pushAll [
    { priority := 3, task_id := "x", task_type := "indexing",
      data := .memories 0 },
    { priority := 1, task_id := "y", task_type := "indexing",
      data := .memories 0 },
    { priority := 2, task_id := "z", task_type := "indexing",
      data := .memories 0 }]) (by decide)

/-- C3 (code bug): the per-source loop of `consolidate_old_memories` has
no try/except, so an exception while summarizing one source group aborts
the whole run.  Concretely: two groups, `alpha` (whose memory has a NULL
`text_blob`, so building its digest raises `TypeError` at
`mem.text_blob[:100]`) and `beta`; the run propagates the exception, the
`beta` group is never consolidated and no stats dictionary is returned —
although a run over the `beta` group alone consolidates it fine. -/
theorem consolidation_aborts_on_group_failure :
    consolidate_old_memories (fun _ => [1]) (fun _ => "d") (fun _ => "i")
        (30 * 86400 + 1)
        [{ created_at := 0, source := some "alpha", text_blob := none },
         { created_at := 0, source := some "beta",
           text_blob := some "hello world" }] 30 100 false
      = ([{ created_at := 0, source := some "alpha", text_blob := none },
          { created_at := 0, source := some "beta",
            text_blob := some "hello world" }], .error .typeError) ∧
    (consolidate_old_memories (fun _ => [1]) (fun _ => "d") (fun _ => "i")
        (30 * 86400 + 1)
        [{ created_at := 0, source := some "beta",
           text_blob := some "hello world" }] 30 100 false).2
      = .ok { consolidated := 1, deleted := 1, summaries_created := 1,
              by_source := [(some "beta", 1)] } := by
  constructor
  · rfl
  · rfl

/-- C7: with `dry_run = True`, each of `consolidate_old_memories`,
`cleanup_expired_memories` and `optimize_embeddings` leaves every memory
in the store unchanged (no insert, delete or modification), while
returning the same intended-effect report as the corresponding real run:
the same expiry count, the same optimization count, and the same
`consolidated` total and `by_source` breakdown (and the same exception,
if one is raised while composing a summary). -/
theorem dry_run_leaves_store_unchanged (embedFn : String → List ℚ)
    (dateFmt isoFmt : Int → String) (now : Int) (store : List Memory)
    (days_old : Int) (batch_size : Nat) (modelAvailable : Bool) :
    (consolidate_old_memories embedFn dateFmt isoFmt now store days_old
        batch_size true).1 = store ∧
    (cleanup_expired_memories now store true).1 = store ∧
    (optimize_embeddings modelAvailable embedFn store true).1 = store ∧
    (cleanup_expired_memories now store true).2
      = (cleanup_expired_memories now store false).2 ∧
    (optimize_embeddings modelAvailable embedFn store true).2
      = (optimize_embeddings modelAvailable embedFn store false).2 ∧
    ((consolidate_old_memories embedFn dateFmt isoFmt now store days_old
        batch_size true).2).map statProj
      = ((consolidate_old_memories embedFn dateFmt isoFmt now store days_old
        batch_size false).2).map statProj := by
  refine ⟨?_, ?_, ?_, ?_, ?_, ?_⟩
  · unfold consolidate_old_memories
    dsimp only
    split
    · rfl
    · exact consolidateGroups_dry_run_fst _ _ _ _ _ _ _
  · by_cases hE : expiredScan now store = [] <;>
      simp [cleanup_expired_memories, hE]
  · by_cases hM : modelAvailable <;> simp [optimize_embeddings, hM]
  · by_cases hE : expiredScan now store = [] <;>
      simp [cleanup_expired_memories, hE]
  · by_cases hM : modelAvailable <;> simp [optimize_embeddings, hM]
  · unfold consolidate_old_memories
    dsimp only
    split
    · rfl
    · exact consolidateGroups_dry_run_stats _ _ _ _ _ _ _ _ _ rfl

/-- C8: running `cleanup_expired_memories` twice in a row (same reported
clock, no writes in between) in non-dry-run mode returns a count of 0 on
the second run: the first run deletes every expired memory and the
survivors with a (truthy) TTL are, at that same instant, not yet
expired. -/
theorem cleanup_expired_idempotent (now : Int) (store : List Memory) :
    (cleanup_expired_memories now
        (cleanup_expired_memories now store false).1 false).2 = 0 := by
  have hempty : expiredScan now (cleanup_expired_memories now store false).1
      = [] := by
    by_cases hE : expiredScan now store = []
    · simp [cleanup_expired_memories, hE]
    · rw [List.eq_nil_iff_forall_not_mem]
      intro m hm
      have hm1 : m ∈ (cleanup_expired_memories now store false).1 := by
        have := List.mem_filter.mp hm
        exact (List.mem_filter.mp this.1).1
      rw [cleanup_expired_memories] at hm1
      simp only [if_neg hE, if_neg (Bool.false_ne_true)] at hm1
      have hm1' := List.mem_filter.mp hm1
      have hmE : m ∈ expiredScan now store := by
        unfold expiredScan
        rw [List.mem_filter, List.mem_filter]
        have hq := (List.mem_filter.mp hm).2
        have hp := (List.mem_filter.mp (List.mem_filter.mp hm).1).2
        exact ⟨⟨hm1'.1, hp⟩, hq⟩
      have hcontains := hm1'.2
      simp only [Bool.not_eq_true', List.contains, List.elem_eq_mem,
        decide_eq_false_iff_not] at hcontains
      exact hcontains hmE
  rw [cleanup_expired_memories]
  simp only [hempty, if_pos]

end AiBrain
